import Mathlib

/-!
Verification of the core geometry of the klokantech/ol3raster raster-reprojection
engine: a shallow embedding over ℚ of the triangulator (`ol.reproj.Triangulation`,
`src/unnamed/part_000` and `src/src/ol/reproj/triangulation.js`), the triangle
rasterizer (`ol.reproj.renderTriangles`, `src/unnamed/part_002`) and the linear
solver (`ol.math.solveLinearSystem`, `src/src/ol/math.js`), with theorems about
the specified properties.  Machine numbers are modelled by exact rationals;
canvas state is modelled by an explicit state record.
-/

namespace OlReproj

/-- A coordinate `ol.Coordinate`: a pair (x, y). -/
abbrev Coord := ℚ × ℚ

/-- `goog.math.modulo(a, b)`: the mathematical modulo, with result in `[0, b)`
for `b > 0` (the JS source computes `r = a % b; return (r * b < 0) ? r + b : r`,
which for exact arithmetic and `b > 0` equals `a - b * ⌊a / b⌋`). -/
def moduloQ (a b : ℚ) : ℚ := a - b * (⌊a / b⌋ : ℚ)

theorem moduloQ_eq_mul_fract (a b : ℚ) (hb : b ≠ 0) :
    moduloQ a b = b * Int.fract (a / b) := by
  unfold moduloQ Int.fract
  field_simp

theorem moduloQ_nonneg (a b : ℚ) (hb : 0 < b) : 0 ≤ moduloQ a b := by
  rw [moduloQ_eq_mul_fract a b hb.ne']
  exact mul_nonneg hb.le (Int.fract_nonneg _)

theorem moduloQ_lt (a b : ℚ) (hb : 0 < b) : moduloQ a b < b := by
  rw [moduloQ_eq_mul_fract a b hb.ne']
  calc b * Int.fract (a / b) < b * 1 :=
        mul_lt_mul_of_pos_left (Int.fract_lt_one _) hb
    _ = b := mul_one b

/-- An `ol.Extent` `[minX, minY, maxX, maxY]` with finite bounds. -/
structure Extent where
  minX : ℚ
  minY : ℚ
  maxX : ℚ
  maxY : ℚ
deriving DecidableEq, Repr

/-- Modelled from the spec: `ol.extent.getTopLeft` (the `ol.extent` helpers are
not under `src/`; §3 defines an extent as the axis-aligned rectangle
`(minX, minY, maxX, maxY)`). -/
def getTopLeft (e : Extent) : Coord := (e.minX, e.maxY)

/-- Modelled from the spec: `ol.extent.getTopRight`. -/
def getTopRight (e : Extent) : Coord := (e.maxX, e.maxY)

/-- Modelled from the spec: `ol.extent.getBottomRight`. -/
def getBottomRight (e : Extent) : Coord := (e.maxX, e.minY)

/-- Modelled from the spec: `ol.extent.getBottomLeft`. -/
def getBottomLeft (e : Extent) : Coord := (e.minX, e.minY)

/-- Modelled from the spec: `ol.extent.getWidth`. -/
def getWidth (e : Extent) : ℚ := e.maxX - e.minX

/-- Modelled from the spec: `ol.extent.getHeight`. -/
def getHeight (e : Extent) : ℚ := e.maxY - e.minY

/-- Modelled from the spec: `ol.extent.containsCoordinate`. -/
def containsCoordinate (e : Extent) (c : Coord) : Bool :=
  decide (e.minX ≤ c.1) && decide (c.1 ≤ e.maxX) &&
  decide (e.minY ≤ c.2) && decide (c.2 ≤ e.maxY)

/-- Modelled from the spec: `ol.extent.intersects` on two finite extents. -/
def intersects (e1 e2 : Extent) : Bool :=
  decide (e1.minX ≤ e2.maxX) && decide (e1.maxX ≥ e2.minX) &&
  decide (e1.minY ≤ e2.maxY) && decide (e1.maxY ≥ e2.minY)

/-- Modelled from the spec: `ol.extent.boundingExtent` of four (finite)
coordinates: the axis-aligned bounding box. -/
def boundingExtent4 (a b c d : Coord) : Extent :=
  { minX := min (min (min a.1 b.1) c.1) d.1
    minY := min (min (min a.2 b.2) c.2) d.2
    maxX := max (max (max a.1 b.1) c.1) d.1
    maxY := max (max (max a.2 b.2) c.2) d.2 }

/-- A rational extended with the two IEEE infinities, used for the
`ol.extent.createEmpty` sentinel `[Infinity, Infinity, -Infinity, -Infinity]`
and the extents accumulated from it. -/
inductive QInf where
  | negInf
  | val (q : ℚ)
  | posInf
deriving DecidableEq, Repr

/-- Order on `QInf`, as JS `<=` behaves on these values. -/
def QInf.leB : QInf → QInf → Bool
  | .negInf, _ => true
  | .val _, .negInf => false
  | .val a, .val b => decide (a ≤ b)
  | .val _, .posInf => true
  | .posInf, .posInf => true
  | .posInf, _ => false

/-- Strict order on `QInf` (JS `<` on these values). -/
def QInf.ltB (a b : QInf) : Bool := !(QInf.leB b a)

/-- `Math.min` on `QInf`. -/
def QInf.minI (a b : QInf) : QInf := if QInf.leB a b then a else b

/-- `Math.max` on `QInf`. -/
def QInf.maxI (a b : QInf) : QInf := if QInf.leB a b then b else a

/-- Subtraction of a finite rational from a `QInf` (JS `Infinity - w = Infinity`). -/
def QInf.subQ : QInf → ℚ → QInf
  | .negInf, _ => .negInf
  | .posInf, _ => .posInf
  | .val a, w => .val (a - w)

/-- An extent whose bounds may be infinite: the result type of
`ol.extent.createEmpty` / `ol.extent.extendCoordinate` accumulation. -/
structure EExtent where
  minX : QInf
  minY : QInf
  maxX : QInf
  maxY : QInf
deriving DecidableEq, Repr

/-- Modelled from the spec: `ol.extent.createEmpty` returns the sentinel
`[Infinity, Infinity, -Infinity, -Infinity]` that absorbs any point on union. -/
def createEmptyE : EExtent := ⟨.posInf, .posInf, .negInf, .negInf⟩

/-- Modelled from the spec: `ol.extent.extendCoordinate`
(`extent[0] = min(extent[0], c[0])` and so on). -/
def extendCoordinateE (e : EExtent) (c : Coord) : EExtent :=
  { minX := QInf.minI e.minX (.val c.1)
    minY := QInf.minI e.minY (.val c.2)
    maxX := QInf.maxI e.maxX (.val c.1)
    maxY := QInf.maxI e.maxY (.val c.2) }

/-- `ol.extent.containsCoordinate` where the extent may have infinite bounds. -/
def containsCoordinateE (e : EExtent) (c : Coord) : Bool :=
  QInf.leB e.minX (.val c.1) && QInf.leB (.val c.1) e.maxX &&
  QInf.leB e.minY (.val c.2) && QInf.leB (.val c.2) e.maxY

/-- `ol.extent.intersects` between a finite extent and a possibly-infinite one
(as used by `ol.reproj.createTile` on the result of the source-extent
calculation). -/
def intersectsE (e1 : Extent) (e2 : EExtent) : Bool :=
  QInf.leB (.val e1.minX) e2.maxX && QInf.leB e2.minX (.val e1.maxX) &&
  QInf.leB (.val e1.minY) e2.maxY && QInf.leB e2.minY (.val e1.maxY)

/-- The projection descriptor consumed by the triangulator
(`ol.proj.Projection`): its extent, `canWrapX()` and `isGlobal()`. -/
structure Projection where
  extent : Extent
  canWrapX : Bool
  isGlobal : Bool

/-- Midpoint of two coordinates, `[(a[0] + c[0]) / 2, (a[1] + c[1]) / 2]`. -/
def midpoint (a c : Coord) : Coord := ((a.1 + c.1) / 2, (a.2 + c.2) / 2)

/-- The cross product `(b[0]-a[0])*(p[1]-a[1]) - (b[1]-a[1])*(p[0]-a[0])`
used by the clipper's inside test. -/
def crossF (a b p : Coord) : ℚ :=
  (b.1 - a.1) * (p.2 - a.2) - (b.2 - a.2) * (p.1 - a.1)

/-- The Sutherland-Hodgman `isInside` test from
`ol.reproj.Triangulation.triangulateQuadExtentIntersection_`
(`src/unnamed/part_000` lines 132-134): the cross product is `<= 0`. -/
def isInside (a b p : Coord) : Bool := decide (crossF a b p ≤ 0)

/-- Modelled from the spec: `ol.coordinate.getLineIntersection` is not under
`src/`; §4.3 prescribes the standard two-line intersection formula, any
well-defined point of the segment being acceptable when the denominator is zero
(parallel lines, unreachable from the clipper). -/
def getLineIntersection (seg : Coord × Coord) (edge : Coord × Coord) : Coord :=
  let x1 := seg.1.1; let y1 := seg.1.2
  let x2 := seg.2.1; let y2 := seg.2.2
  let x3 := edge.1.1; let y3 := edge.1.2
  let x4 := edge.2.1; let y4 := edge.2.2
  let d := (x1 - x2) * (y3 - y4) - (y1 - y2) * (x3 - x4)
  if d = 0 then seg.1
  else
    (((x1 * y2 - y1 * x2) * (x3 - x4) - (x1 - x2) * (x3 * y4 - y3 * x4)) / d,
     ((x1 * y2 - y1 * x2) * (y3 - y4) - (y1 - y2) * (x3 * y4 - y3 * x4)) / d)

/-- One iteration of the inner Sutherland-Hodgman loop
(`src/unnamed/part_000` lines 139-149): state is the list built so far and the
current `S`; `E` is the vertex being visited. -/
def clipPassStep (edge : Coord × Coord) (acc : List Coord × Coord) (E : Coord) :
    List Coord × Coord :=
  let S := acc.2
  let newVertices :=
    if isInside edge.1 edge.2 E then
      if !(isInside edge.1 edge.2 S) then
        acc.1 ++ [getLineIntersection (S, E) edge, E]
      else
        acc.1 ++ [E]
    else if isInside edge.1 edge.2 S then
      acc.1 ++ [getLineIntersection (S, E) edge]
    else
      acc.1
  (newVertices, E)

/-- One full pass of Sutherland-Hodgman clipping against a single edge:
`S` starts at the last vertex, then every vertex is visited in order. -/
def clipPass (edge : Coord × Coord) (vertices : List Coord) : List Coord :=
  match vertices.getLast? with
  | none => []
  | some S0 => (vertices.foldl (clipPassStep edge) ([], S0)).1

/-- The four directed edges of the extent in the order used by the clipper
(`[[tl, tr], [tr, br], [br, bl], [bl, tl]]`, `src/unnamed/part_000` line 129). -/
def extentEdges (extent : Extent) : List (Coord × Coord) :=
  [(getTopLeft extent, getTopRight extent),
   (getTopRight extent, getBottomRight extent),
   (getBottomRight extent, getBottomLeft extent),
   (getBottomLeft extent, getTopLeft extent)]

/-- The complete Sutherland-Hodgman clipping stage: the vertex list is clipped
against each of the four extent edges in turn. -/
def clipRing (extent : Extent) (vs : List Coord) : List Coord :=
  (extentEdges extent).foldl (fun vertices edge => clipPass edge vertices) vs

/-- Twice the signed area of the triangle `a b c`. -/
def signedArea2 (a b c : Coord) : ℚ :=
  (b.1 - a.1) * (c.2 - a.2) - (b.2 - a.2) * (c.1 - a.1)

/-- Modelled from the spec: `ol.coordinate.isInTriangle` is not under `src/`;
the caller's comment (`src/src/ol/reproj/triangulation.js` lines 179-182) asks
whether a point lies inside a triangle, realised here by the standard
same-orientation sign test. -/
def isInTriangle (p a b c : Coord) : Bool :=
  let s1 := signedArea2 a b p
  let s2 := signedArea2 b c p
  let s3 := signedArea2 c a p
  (decide (0 ≤ s1) && decide (0 ≤ s2) && decide (0 ≤ s3)) ||
  (decide (s1 ≤ 0) && decide (s2 ≤ 0) && decide (s3 ≤ 0))

/-- Ear test at index `i` of the ring: the corner triangle must have signed
area consistent with a clockwise ring and contain no other ring vertex. -/
def isEarAt (vs : List Coord) (i : ℕ) : Bool :=
  let n := vs.length
  let p := vs.getD ((i + n - 1) % n) (0, 0)
  let v := vs.getD (i % n) (0, 0)
  let q := vs.getD ((i + 1) % n) (0, 0)
  decide (signedArea2 p v q ≤ 0) &&
  (List.range n).all fun j =>
    (j == (i + n - 1) % n || j == i % n || j == (i + 1) % n) ||
    !(isInTriangle (vs.getD j (0, 0)) p v q)

/-- Modelled from the spec: `ol.ext.earcut` is not under `src/`; §4.4
prescribes ear-clipping for rings with five or more vertices (repeatedly find
an ear, emit its triangle, remove the vertex).  Fueled to guarantee
termination; no claim depends on this branch. -/
def earcutModel : ℕ → List Coord → List Coord
  | 0, _ => []
  | fuel + 1, vs =>
    if vs.length < 3 then []
    else if vs.length == 3 then vs
    else
      let i := ((List.range vs.length).find? (isEarAt vs)).getD 0
      let p := vs.getD ((i + vs.length - 1) % vs.length) (0, 0)
      let v := vs.getD (i % vs.length) (0, 0)
      let q := vs.getD ((i + 1) % vs.length) (0, 0)
      [p, v, q] ++ earcutModel fuel (vs.eraseIdx i)

/-- `ol.reproj.Triangulation.triangulateQuadExtentIntersection_`
(`src/unnamed/part_000` lines 123-166): Sutherland-Hodgman clip of the quad
against the extent, then fan/ear triangulation of the result into a flat
vertex list. -/
def triangulateQuadExtentIntersection (a b c d : Coord) (extent : Extent) :
    List Coord :=
  let vertices := clipRing extent [a, b, c, d]
  if vertices.length < 3 then []
  else if vertices.length == 3 then vertices
  else if vertices.length == 4 then
    [vertices.getD 0 a, vertices.getD 1 a, vertices.getD 2 a,
     vertices.getD 0 a, vertices.getD 2 a, vertices.getD 3 a]
  else earcutModel vertices.length vertices

/-- An `ol.reproj.Triangle` of `src/unnamed/part_000` (lines 11-17): three
source points and three target points. -/
structure TriangleA where
  source : Coord × Coord × Coord
  target : Coord × Coord × Coord
deriving DecidableEq, Repr

/-- The immutable per-instance data of `ol.reproj.Triangulation`
(`src/unnamed/part_000` constructor, lines 29-93): projections become the two
transform functions plus the source projection descriptor;
`errorThresholdSquared_` stores the squared threshold.
`maxTriangleWidth` stands for the `ol.RASTER_REPROJ_MAX_TRIANGLE_WIDTH`
constant, which is defined outside `src/`. -/
structure TriEnvA where
  sourceProj : Projection
  transformInv : Coord → Coord
  transformFwd : Coord → Coord
  maxSourceExtent : Option Extent
  errorThresholdSquared : ℚ
  maxTriangleWidth : ℚ

/-- `this.sourceWorldWidth_ = ol.extent.getWidth(this.sourceProj_.getExtent())`. -/
def TriEnvA.sourceWorldWidth (env : TriEnvA) : ℚ := getWidth env.sourceProj.extent

/-- The mutable state of `ol.reproj.Triangulation` (`src/unnamed/part_000`):
the triangle list, the `wrapsXInSource_` flag and the cached
`trianglesSourceExtent_`. -/
structure TriStateA where
  triangles : List TriangleA
  wrapsXInSource : Bool
  trianglesSourceExtent : Option EExtent

/-- The fresh state built by the constructor before seeding. -/
def initStateA : TriStateA := ⟨[], false, none⟩

/-- `ol.reproj.Triangulation.prototype.addTriangle_`
(`src/unnamed/part_000` lines 179-185): pushes the triangle unconditionally. -/
def addTriangleA (st : TriStateA) (a b c aSrc bSrc cSrc : Coord) : TriStateA :=
  { st with triangles :=
      st.triangles ++ [{ source := (aSrc, bSrc, cSrc), target := (a, b, c) }] }

/-- `srcCoverageX = ol.extent.getWidth(srcQuadExtent) / this.sourceWorldWidth_`
(`src/unnamed/part_000` line 212). -/
def srcCoverageX (env : TriEnvA) (srcQuadExtent : Extent) : ℚ :=
  getWidth srcQuadExtent / env.sourceWorldWidth

/-- The quad wrap classification (`src/unnamed/part_000` lines 214-217):
`this.sourceProj_.canWrapX() && srcCoverageX > 0.5 && srcCoverageX < 1`. -/
def quadWrapsX (env : TriEnvA) (srcQuadExtent : Extent) : Bool :=
  env.sourceProj.canWrapX &&
  decide (srcCoverageX env srcQuadExtent > 1 / 2) &&
  decide (srcCoverageX env srcQuadExtent < 1)

/-- The forced-subdivision test (`src/unnamed/part_000` lines 220-221):
`!wrapsX && this.sourceProj_.isGlobal() && srcCoverageX > MAX_TRIANGLE_WIDTH`. -/
def forcedSubdivision (env : TriEnvA) (wrapsX : Bool) (srcQuadExtent : Extent) :
    Bool :=
  !wrapsX && env.sourceProj.isGlobal &&
  decide (srcCoverageX env srcQuadExtent > env.maxTriangleWidth)

/-- The midpoint-error computation (`src/unnamed/part_000` lines 227-238):
`dx`/`dy` between the average of the two diagonal source corners and the
inverse-projected quad center, with x reduced modulo the source world width
for a wrapping quad. -/
def centerSrcErrorSquared (env : TriEnvA) (wrapsX : Bool)
    (aSrc cSrc centerSrc : Coord) : ℚ :=
  let dx : ℚ :=
    if wrapsX then
      (moduloQ aSrc.1 env.sourceWorldWidth + moduloQ cSrc.1 env.sourceWorldWidth) / 2
        - moduloQ centerSrc.1 env.sourceWorldWidth
    else
      (aSrc.1 + cSrc.1) / 2 - centerSrc.1
  let dy : ℚ := (aSrc.2 + cSrc.2) / 2 - centerSrc.2
  dx * dx + dy * dy

/-- The complete subdivision decision of `addQuadIfValid_` when `maxSubdiv > 0`
(`src/unnamed/part_000` lines 220-239): forced subdivision, or else the
midpoint error squared exceeding the squared threshold. -/
def needsSubdivisionA (env : TriEnvA) (a c aSrc cSrc : Coord)
    (srcQuadExtent : Extent) : Bool :=
  let wrapsX := quadWrapsX env srcQuadExtent
  let forced := forcedSubdivision env wrapsX srcQuadExtent
  if forced then true
  else
    let centerSrc := env.transformInv (midpoint a c)
    decide (centerSrcErrorSquared env wrapsX aSrc cSrc centerSrc >
      env.errorThresholdSquared)

/-- `makeFinite` (`src/unnamed/part_000` lines 275-282) clamps non-finite
components to the extent; rationals are always finite, so it is the
identity here. -/
def makeFinite (coord : Coord) (_extent : Extent) : Coord := coord

/-- The loop of `addQuadIfValid_` over clipped triangles
(`src/unnamed/part_000` lines 290-299): forward-transform each source vertex
and add the triangle. -/
def addClippedTrianglesA (env : TriEnvA) : TriStateA → List Coord → TriStateA
  | st, aSrc :: bSrc :: cSrc :: rest =>
    let a := env.transformFwd aSrc
    let b := env.transformFwd bSrc
    let c := env.transformFwd cSrc
    addClippedTrianglesA env (addTriangleA st a b c aSrc bSrc cSrc) rest
  | st, _ => st

/-- The leaf part of `addQuadIfValid_` (`src/unnamed/part_000` lines 264-305):
record a wrap, clip against the source extent if some corner is outside,
otherwise emit the two diagonal triangles `(a,c,d)` and `(a,b,c)`. -/
def leafA (env : TriEnvA) (st : TriStateA) (wrapsX : Bool)
    (a b c d aSrc bSrc cSrc dSrc : Coord) : TriStateA :=
  let st := if wrapsX then { st with wrapsXInSource := true } else st
  match env.maxSourceExtent with
  | some mse =>
    if !(containsCoordinate mse aSrc) || !(containsCoordinate mse bSrc) ||
       !(containsCoordinate mse cSrc) || !(containsCoordinate mse dSrc) then
      let aSrc := makeFinite aSrc mse
      let bSrc := makeFinite bSrc mse
      let cSrc := makeFinite cSrc mse
      let dSrc := makeFinite dSrc mse
      addClippedTrianglesA env st
        (triangulateQuadExtentIntersection aSrc bSrc cSrc dSrc mse)
    else
      addTriangleA (addTriangleA st a c d aSrc cSrc dSrc) a b c aSrc bSrc cSrc
  | none =>
    addTriangleA (addTriangleA st a c d aSrc cSrc dSrc) a b c aSrc bSrc cSrc

/-- The skip test at the top of `addQuadIfValid_`
(`src/unnamed/part_000` lines 206-211): the quad is ignored when a max source
extent is set and the source bounding box does not intersect it. -/
def quadSkipped (env : TriEnvA) (srcQuadExtent : Extent) : Bool :=
  match env.maxSourceExtent with
  | some mse => !(intersects srcQuadExtent mse)
  | none => false

/-- `ol.reproj.Triangulation.prototype.addQuadIfValid_`
(`src/unnamed/part_000` lines 202-305), recursing on `maxSubdiv`. -/
def addQuadIfValidA (env : TriEnvA) :
    ℕ → TriStateA → Coord → Coord → Coord → Coord →
    Coord → Coord → Coord → Coord → TriStateA
  | 0, st, a, b, c, d, aSrc, bSrc, cSrc, dSrc =>
    let srcQuadExtent := boundingExtent4 aSrc bSrc cSrc dSrc
    if quadSkipped env srcQuadExtent then st
    else
      leafA env st (quadWrapsX env srcQuadExtent) a b c d aSrc bSrc cSrc dSrc
  | m + 1, st, a, b, c, d, aSrc, bSrc, cSrc, dSrc =>
    let srcQuadExtent := boundingExtent4 aSrc bSrc cSrc dSrc
    if quadSkipped env srcQuadExtent then st
    else
      if needsSubdivisionA env a c aSrc cSrc srcQuadExtent then
        let center := midpoint a c
        let centerSrc := env.transformInv center
        let ab := midpoint a b
        let abSrc := env.transformInv ab
        let bc := midpoint b c
        let bcSrc := env.transformInv bc
        let cd := midpoint c d
        let cdSrc := env.transformInv cd
        let da := midpoint d a
        let daSrc := env.transformInv da
        let st1 := addQuadIfValidA env m st a ab center da
          aSrc abSrc centerSrc daSrc
        let st2 := addQuadIfValidA env m st1 ab b bc center
          abSrc bSrc bcSrc centerSrc
        let st3 := addQuadIfValidA env m st2 center bc c cd
          centerSrc bcSrc cSrc cdSrc
        addQuadIfValidA env m st3 da center cd d
          daSrc centerSrc cdSrc dSrc
      else
        leafA env st (quadWrapsX env srcQuadExtent) a b c d aSrc bSrc cSrc dSrc

/-- The `ol.reproj.Triangulation` constructor tail
(`src/unnamed/part_000` lines 95-106): inverse-project the four corners of the
target extent and seed the quad recursion (`maxSubdiv` stands for the
`ol.RASTER_REPROJ_MAX_SUBDIVISION` constant, defined outside `src/`). -/
def buildTriangulationA (env : TriEnvA) (targetExtent : Extent)
    (maxSubdiv : ℕ) : TriStateA :=
  let tlDst := getTopLeft targetExtent
  let trDst := getTopRight targetExtent
  let brDst := getBottomRight targetExtent
  let blDst := getBottomLeft targetExtent
  addQuadIfValidA env maxSubdiv initStateA tlDst trDst brDst blDst
    (env.transformInv tlDst) (env.transformInv trDst)
    (env.transformInv brDst) (env.transformInv blDst)

/-- The per-triangle extension step of the wrapping branch of
`calculateSourceExtent` (`src/unnamed/part_000` lines 323-331). -/
def extendTriangleModulo (W : ℚ) (e : EExtent) (t : TriangleA) : EExtent :=
  let e := extendCoordinateE e (moduloQ t.source.1.1 W, t.source.1.2)
  let e := extendCoordinateE e (moduloQ t.source.2.1.1 W, t.source.2.1.2)
  extendCoordinateE e (moduloQ t.source.2.2.1 W, t.source.2.2.2)

/-- The per-triangle extension step of the plain branch of
`calculateSourceExtent` (`src/unnamed/part_000` lines 338-343). -/
def extendTrianglePlain (e : EExtent) (t : TriangleA) : EExtent :=
  let e := extendCoordinateE e t.source.1
  let e := extendCoordinateE e t.source.2.1
  extendCoordinateE e t.source.2.2

/-- The raw extent accumulated by the wrapping branch before the conditional
world-width shift of the x bounds. -/
def wrapAccumulatedExtent (env : TriEnvA) (triangles : List TriangleA) :
    EExtent :=
  triangles.foldl (extendTriangleModulo env.sourceWorldWidth) createEmptyE

/-- The conditional shift of the x bounds
(`src/unnamed/part_000` lines 333-336): each bound above the source projection
extent's `maxX` is moved down by one world width. -/
def shiftExtentBack (env : TriEnvA) (e : EExtent) : EExtent :=
  let right := env.sourceProj.extent.maxX
  let e :=
    if QInf.ltB (.val right) e.minX then
      { e with minX := QInf.subQ e.minX env.sourceWorldWidth }
    else e
  if QInf.ltB (.val right) e.maxX then
    { e with maxX := QInf.subQ e.maxX env.sourceWorldWidth }
  else e

/-- `ol.reproj.Triangulation.prototype.calculateSourceExtent`
(`src/unnamed/part_000` lines 311-348): returns the cached extent when
present, otherwise accumulates all source vertices (modulo the world width
with the conditional shift-back when `wrapsXInSource_`), caches and returns. -/
def calculateSourceExtentA (env : TriEnvA) (st : TriStateA) :
    EExtent × TriStateA :=
  match st.trianglesSourceExtent with
  | some e => (e, st)
  | none =>
    let extent :=
      if st.wrapsXInSource then
        shiftExtentBack env (wrapAccumulatedExtent env st.triangles)
      else
        st.triangles.foldl extendTrianglePlain createEmptyE
    (extent, { st with trianglesSourceExtent := some extent })

/-- `ol.coordinate.squaredDistance` (not under `src/`): the squared euclidean
distance between two coordinates. -/
def squaredDistanceC (a b : Coord) : ℚ :=
  (b.1 - a.1) * (b.1 - a.1) + (b.2 - a.2) * (b.2 - a.2)

/-- An `ol.reproj.Triangle` of `src/src/ol/reproj/triangulation.js`
(lines 70-80): three source points, three target points and the per-triangle
`needsShift` flag. -/
structure TriangleB where
  source : Coord × Coord × Coord
  target : Coord × Coord × Coord
  needsShift : Bool
deriving DecidableEq, Repr

/-- The state of the `ol.reproj.Triangulation` of
`src/src/ol/reproj/triangulation.js` (lines 87-101): the triangle list and the
mesh-level `needsShift_` flag. -/
structure TriStateB where
  triangles : List TriangleB
  needsShift : Bool
deriving DecidableEq, Repr

/-- The projections and transforms consumed by the B-version triangulator
(`ol.proj.transform`/`ol.proj.getTransform` on the same projection pair
collapse to the single inverse point transform). -/
structure TriEnvB where
  sourceProj : Projection
  transformInv : Coord → Coord
  transformFwd : Coord → Coord

/-- `ol.reproj.Triangulation.prototype.addTriangle_`
(`src/src/ol/reproj/triangulation.js` lines 175-199): when the source
projection can wrap, `needsShift` is set iff the inverse-transformed centroid
of the target triangle falls outside the source triangle; the mesh-level flag
is or-ed with the triangle's flag. -/
def addTriangleB (env : TriEnvB) (st : TriStateB)
    (a b c aSrc bSrc cSrc : Coord) : TriStateB :=
  let needsShift :=
    if env.sourceProj.canWrapX then
      let centroid : Coord :=
        ((a.1 + b.1 + c.1) / 3, (a.2 + b.2 + c.2) / 3)
      let centroidSrc := env.transformInv centroid
      !(isInTriangle centroidSrc aSrc bSrc cSrc)
    else false
  { triangles := st.triangles ++
      [{ source := (aSrc, bSrc, cSrc), target := (a, b, c),
         needsShift := needsShift }]
    needsShift := st.needsShift || needsShift }

/-- The loop over clipped triangles
(`src/src/ol/reproj/triangulation.js` lines 300-310). -/
def addClippedTrianglesB (env : TriEnvB) : TriStateB → List Coord → TriStateB
  | st, aSrc :: bSrc :: cSrc :: rest =>
    let a := env.transformFwd aSrc
    let b := env.transformFwd bSrc
    let c := env.transformFwd cSrc
    addClippedTrianglesB env (addTriangleB env st a b c aSrc bSrc cSrc) rest
  | st, _ => st

/-- The leaf part of the B-version `addQuadIfValid_`
(`src/src/ol/reproj/triangulation.js` lines 277-316). -/
def leafB (env : TriEnvB) (mse : Option Extent) (st : TriStateB)
    (a b c d aSrc bSrc cSrc dSrc : Coord) : TriStateB :=
  match mse with
  | some e =>
    if !(containsCoordinate e aSrc) || !(containsCoordinate e bSrc) ||
       !(containsCoordinate e cSrc) || !(containsCoordinate e dSrc) then
      addClippedTrianglesB env st
        (triangulateQuadExtentIntersection (makeFinite aSrc e)
          (makeFinite bSrc e) (makeFinite cSrc e) (makeFinite dSrc e) e)
    else
      addTriangleB env (addTriangleB env st a c d aSrc cSrc dSrc)
        a b c aSrc bSrc cSrc
  | none =>
    addTriangleB env (addTriangleB env st a c d aSrc cSrc dSrc)
      a b c aSrc bSrc cSrc

/-- The skip test of the B-version `addQuadIfValid_`
(`src/src/ol/reproj/triangulation.js` lines 225-231). -/
def quadSkippedB (mse : Option Extent) (aSrc bSrc cSrc dSrc : Coord) : Bool :=
  match mse with
  | some e => !(intersects (boundingExtent4 aSrc bSrc cSrc dSrc) e)
  | none => false

/-- `ol.reproj.Triangulation.prototype.addQuadIfValid_` of
`src/src/ol/reproj/triangulation.js` (lines 220-316): subdivision on midpoint
error only (no wrap classification, no forced subdivision), then source-domain
clipping, then the two diagonal triangles. -/
def addQuadIfValidB (env : TriEnvB) (mse : Option Extent) (thr : Option ℚ) :
    ℕ → TriStateB → Coord → Coord → Coord → Coord →
    Coord → Coord → Coord → Coord → TriStateB
  | 0, st, a, b, c, d, aSrc, bSrc, cSrc, dSrc =>
    if quadSkippedB mse aSrc bSrc cSrc dSrc then st
    else leafB env mse st a b c d aSrc bSrc cSrc dSrc
  | m + 1, st, a, b, c, d, aSrc, bSrc, cSrc, dSrc =>
    if quadSkippedB mse aSrc bSrc cSrc dSrc then st
    else
      match thr with
      | some t =>
        let centerTarget := midpoint a c
        let centerSource := env.transformInv centerTarget
        let centerSourceEstim := midpoint aSrc cSrc
        if squaredDistanceC centerSourceEstim centerSource > t * t then
          let ab := midpoint a b
          let abSrc := env.transformInv ab
          let bc := midpoint b c
          let bcSrc := env.transformInv bc
          let cd := midpoint c d
          let cdSrc := env.transformInv cd
          let da := midpoint d a
          let daSrc := env.transformInv da
          let st1 := addQuadIfValidB env mse thr m st a ab centerTarget da
            aSrc abSrc centerSource daSrc
          let st2 := addQuadIfValidB env mse thr m st1 ab b bc centerTarget
            abSrc bSrc bcSrc centerSource
          let st3 := addQuadIfValidB env mse thr m st2 centerTarget bc c cd
            centerSource bcSrc cSrc cdSrc
          addQuadIfValidB env mse thr m st3 da centerTarget cd d
            daSrc centerSource cdSrc dSrc
        else leafB env mse st a b c d aSrc bSrc cSrc dSrc
      | none => leafB env mse st a b c d aSrc bSrc cSrc dSrc

/-- `ol.reproj.Triangulation.createForExtent`
(`src/src/ol/reproj/triangulation.js` lines 329-352). -/
def createForExtentB (env : TriEnvB) (extent : Extent) (mse : Option Extent)
    (maxSubdiv : ℕ) (thr : Option ℚ) : TriStateB :=
  let tlDst := getTopLeft extent
  let trDst := getTopRight extent
  let brDst := getBottomRight extent
  let blDst := getBottomLeft extent
  addQuadIfValidB env mse thr maxSubdiv ⟨[], false⟩ tlDst trDst brDst blDst
    (env.transformInv tlDst) (env.transformInv trDst)
    (env.transformInv brDst) (env.transformInv blDst)

/-- The mesh-level flag is consistent with the per-triangle flags. -/
def wrapsFlagConsistent (st : TriStateB) : Prop :=
  st.needsShift = true ↔ ∃ t ∈ st.triangles, t.needsShift = true

theorem wrapsFlagConsistent_addTriangleB (env : TriEnvB) {st : TriStateB}
    (h : wrapsFlagConsistent st) (a b c aSrc bSrc cSrc : Coord) :
    wrapsFlagConsistent (addTriangleB env st a b c aSrc bSrc cSrc) := by
  unfold wrapsFlagConsistent addTriangleB at *
  simp only [List.mem_append, List.mem_singleton, Bool.or_eq_true, h]
  constructor
  · rintro (hl | hr)
    · obtain ⟨t, ht, hts⟩ := hl
      exact ⟨t, Or.inl ht, hts⟩
    · exact ⟨_, Or.inr rfl, hr⟩
  · rintro ⟨t, (ht | ht), hts⟩
    · exact Or.inl ⟨t, ht, hts⟩
    · subst ht
      exact Or.inr hts

theorem wrapsFlagConsistent_addClippedTrianglesB (env : TriEnvB) :
    ∀ (l : List Coord) {st : TriStateB}, wrapsFlagConsistent st →
      wrapsFlagConsistent (addClippedTrianglesB env st l)
  | _ :: _ :: _ :: rest, _, h =>
    wrapsFlagConsistent_addClippedTrianglesB env rest
      (wrapsFlagConsistent_addTriangleB env h _ _ _ _ _ _)
  | [], _, h => h
  | [_], _, h => h
  | [_, _], _, h => h

theorem wrapsFlagConsistent_leafB (env : TriEnvB) (mse : Option Extent)
    {st : TriStateB} (h : wrapsFlagConsistent st)
    (a b c d aSrc bSrc cSrc dSrc : Coord) :
    wrapsFlagConsistent (leafB env mse st a b c d aSrc bSrc cSrc dSrc) := by
  unfold leafB
  match mse with
  | some e =>
    dsimp only
    split
    · exact wrapsFlagConsistent_addClippedTrianglesB env _ h
    · exact wrapsFlagConsistent_addTriangleB env
        (wrapsFlagConsistent_addTriangleB env h _ _ _ _ _ _) _ _ _ _ _ _
  | none =>
    exact wrapsFlagConsistent_addTriangleB env
      (wrapsFlagConsistent_addTriangleB env h _ _ _ _ _ _) _ _ _ _ _ _

theorem wrapsFlagConsistent_addQuadIfValidB (env : TriEnvB)
    (mse : Option Extent) (thr : Option ℚ) (maxSubdiv : ℕ) {st : TriStateB}
    (h : wrapsFlagConsistent st) (a b c d aSrc bSrc cSrc dSrc : Coord) :
    wrapsFlagConsistent
      (addQuadIfValidB env mse thr maxSubdiv st a b c d aSrc bSrc cSrc dSrc) := by
  induction maxSubdiv generalizing st a b c d aSrc bSrc cSrc dSrc with
  | zero =>
    unfold addQuadIfValidB
    split
    · exact h
    · exact wrapsFlagConsistent_leafB env mse h _ _ _ _ _ _ _ _
  | succ m ih =>
    unfold addQuadIfValidB
    split
    · exact h
    · match thr with
      | some t =>
        dsimp only
        split
        · exact ih (ih (ih (ih h _ _ _ _ _ _ _ _) _ _ _ _ _ _ _ _)
            _ _ _ _ _ _ _ _) _ _ _ _ _ _ _ _
        · exact wrapsFlagConsistent_leafB env mse h _ _ _ _ _ _ _ _
      | none => exact wrapsFlagConsistent_leafB env mse h _ _ _ _ _ _ _ _

/-- C5 amended: for every mesh produced by the B-version triangulator, the
mesh-level flag is true iff some triangle carries `needsShift = true`; and
every triangle - those produced by source-domain clipping included - receives
`needsShift` from the same centroid-containment test
(`canWrapX && !(isInTriangle centroidSrc aSrc bSrc cSrc)`), not an
unconditional `false`. -/
theorem mesh_wrap_flag_iff (env : TriEnvB) (extent : Extent)
    (mse : Option Extent) (maxSubdiv : ℕ) (thr : Option ℚ) :
    wrapsFlagConsistent (createForExtentB env extent mse maxSubdiv thr) ∧
    ∀ (st : TriStateB) (a b c aSrc bSrc cSrc : Coord),
      (addTriangleB env st a b c aSrc bSrc cSrc).triangles.getLast? =
        some { source := (aSrc, bSrc, cSrc), target := (a, b, c),
               needsShift :=
                 if env.sourceProj.canWrapX then
                   !(isInTriangle
                     (env.transformInv
                       ((a.1 + b.1 + c.1) / 3, (a.2 + b.2 + c.2) / 3))
                     aSrc bSrc cSrc)
                 else false } := by
  constructor
  · exact wrapsFlagConsistent_addQuadIfValidB env mse thr maxSubdiv
      (by simp [wrapsFlagConsistent]) _ _ _ _ _ _ _ _
  · intro st a b c aSrc bSrc cSrc
    simp [addTriangleB]

/-- A concrete environment for the clipped-triangle wrap test: the inverse
transform is the identity except at the centroid of the first clipped
triangle, which is sent far outside the source domain. -/
def envC5 : TriEnvB :=
  { sourceProj := { extent := ⟨-180, -90, 180, 90⟩,
                    canWrapX := true, isGlobal := false }
    transformInv := fun p => if p = (8 / 3, 6) then (1000, 1000) else p
    transformFwd := fun p => p }

/-- C5 counterexample: a quad partially outside the source domain is clipped;
the first clipped triangle is emitted with `needsShift = true` (its
inverse-transformed target centroid lies outside the source triangle), so
triangles produced by source-domain clipping are not always emitted with
`needsShift = false`. -/
theorem clipped_triangle_needs_shift :
    ((createForExtentB envC5 ⟨-2, 2, 4, 8⟩ (some ⟨0, 0, 10, 10⟩) 4
        (some 1)).triangles.map (fun t => (t.source, t.needsShift)))
      = [(((0, 8), (4, 8), (4, 2)), true),
         (((0, 8), (4, 2), (0, 2)), false)] := by
  with_unfolding_all decide

/-- Row-major matrix as a function of row and column indices (the JS
`Array.<Array.<number>>`); entries outside the given rows read as 0. -/
def ofLists (rows : List (List ℚ)) : ℕ → ℕ → ℚ :=
  fun i j => (rows.getD i []).getD j 0

/-- The pivot search of `ol.math.solveLinearSystem`
(`src/src/ol/math.js` lines 123-132): the row with the largest `|A[r][i]|`
among rows `r ≥ i` together with that largest absolute value (a strictly
greater value replaces the running maximum, so the first maximal row wins). -/
def findPivot (A : ℕ → ℕ → ℚ) (n i : ℕ) : ℕ × ℚ :=
  (List.range' (i + 1) (n - (i + 1))).foldl
    (fun best r => if |A r i| > best.2 then (r, |A r i|) else best)
    (i, |A i i|)

/-- The row swap (`src/src/ol/math.js` lines 138-141). -/
def swapRows (A : ℕ → ℕ → ℚ) (r1 r2 : ℕ) : ℕ → ℕ → ℚ :=
  fun r => if r = r1 then A r2 else if r = r2 then A r1 else A r

/-- The elimination step (`src/src/ol/math.js` lines 143-153): every row `j`
with `i < j < n` gets, in columns `i ≤ k ≤ n`, the entry zeroed at `k = i` and
otherwise `coef * A[i][k]` added, where `coef = -A[j][i] / A[i][i]`. -/
def eliminate (A : ℕ → ℕ → ℚ) (n i : ℕ) : ℕ → ℕ → ℚ :=
  fun j k =>
    if i < j ∧ j < n ∧ i ≤ k ∧ k ≤ n then
      if k = i then 0 else A j k + -(A j i) / A i i * A i k
    else A j k

/-- The forward-elimination loop (`src/src/ol/math.js` lines 122-154),
processing column `i` and recursing with `c` counting remaining columns;
returns `none` when the pivot's absolute maximum is exactly zero. -/
def forwardAux (n : ℕ) : ℕ → (ℕ → ℕ → ℚ) → ℕ → Option (ℕ → ℕ → ℚ)
  | 0, A, _ => some A
  | c + 1, A, i =>
    let p := findPivot A n i
    if p.2 = 0 then none
    else forwardAux n c (eliminate (swapRows A i p.1) n i) (i + 1)

/-- Back substitution (`src/src/ol/math.js` lines 156-163): the in-place
accumulation `A[m][n] -= A[m][l] * x[l]` makes
`x[l] = (A[l][n] - Σ_{k>l} A[l][k] * x[k]) / A[l][l]`, rendered here with the
explicit partial sum; the list returned at fuel `c` holds
`x_{n-c}, ..., x_{n-1}`. -/
def backSubstAux (U : ℕ → ℕ → ℚ) (n : ℕ) : ℕ → List ℚ
  | 0 => []
  | c + 1 =>
    let l := n - (c + 1)
    let xs := backSubstAux U n c
    let s := ∑ j ∈ Finset.range c, U l (l + 1 + j) * xs.getD j 0
    (U l n - s) / U l l :: xs

/-- `ol.math.solveLinearSystem` (`src/src/ol/math.js` lines 112-165) on an
`n × (n+1)` augmented matrix. -/
def solveLinearSystem (n : ℕ) (A : ℕ → ℕ → ℚ) : Option (List ℚ) :=
  (forwardAux n n A 0).map (fun U => backSubstAux U n n)

/-- One elimination step, failure leaving the matrix unchanged; iterated by
`matrixAtStep` to describe the intermediate matrices of the forward loop
independently of `forwardAux`. -/
def stepOnce (n : ℕ) (A : ℕ → ℕ → ℚ) (i : ℕ) : ℕ → ℕ → ℚ :=
  let p := findPivot A n i
  if p.2 = 0 then A else eliminate (swapRows A i p.1) n i

/-- The matrix the forward loop holds before processing column `i`. -/
def matrixAtStep (n : ℕ) (A : ℕ → ℕ → ℚ) : ℕ → (ℕ → ℕ → ℚ)
  | 0 => A
  | i + 1 => stepOnce n (matrixAtStep n A i) i

/-- The 6 × 7 augmented matrix of the affine system, as laid out in the
rasterizer (`src/unnamed/part_002` lines 85-124 and
`src/src/ol/reproj/reproj.js` lines 290-315). -/
def affineAugmented (x0 y0 x1 y1 x2 y2 u0 u1 u2 v0 v1 v2 : ℚ) : ℕ → ℕ → ℚ :=
  ofLists
    [[x0, y0, 1, 0, 0, 0, u0],
     [x1, y1, 1, 0, 0, 0, u1],
     [x2, y2, 1, 0, 0, 0, u2],
     [0, 0, 0, x0, y0, 1, v0],
     [0, 0, 0, x1, y1, 1, v1],
     [0, 0, 0, x2, y2, 1, v2]]

/-- A canvas 2D affine transform `(a, b, c, d, e, f)`:
`x' = a x + c y + e`, `y' = b x + d y + f`. -/
structure Aff where
  a : ℚ
  b : ℚ
  c : ℚ
  d : ℚ
  e : ℚ
  f : ℚ
deriving DecidableEq, Repr

/-- The identity transform. -/
def Aff.idM : Aff := ⟨1, 0, 0, 1, 0, 0⟩

/-- Composition as the canvas `transform` call: the new matrix is applied
before the current one. -/
def Aff.mul (m1 m2 : Aff) : Aff :=
  { a := m1.a * m2.a + m1.c * m2.b
    b := m1.b * m2.a + m1.d * m2.b
    c := m1.a * m2.c + m1.c * m2.d
    d := m1.b * m2.c + m1.d * m2.d
    e := m1.a * m2.e + m1.c * m2.f + m1.e
    f := m1.b * m2.e + m1.d * m2.f + m1.f }

/-- The matrix of `context.translate(x, y)`. -/
def Aff.translateM (x y : ℚ) : Aff := ⟨1, 0, 0, 1, x, y⟩

/-- The matrix of `context.scale(sx, sy)`. -/
def Aff.scaleM (sx sy : ℚ) : Aff := ⟨sx, 0, 0, sy, 0, 0⟩

theorem Aff.mul_idM (m : Aff) : Aff.mul m Aff.idM = m := by
  cases m
  simp [Aff.mul, Aff.idM]

/-- The per-state part of a canvas context snapshot: the current transform,
the active clip paths and the path being built. -/
structure CtxState where
  transform : Aff
  clips : List (List Coord)
  path : List Coord
deriving DecidableEq, Repr

/-- A recorded `drawImage` call: the transform in force, the image identity
and the destination rectangle arguments. -/
structure DrawCall where
  transform : Aff
  image : ℕ
  x : ℚ
  y : ℚ
  w : ℚ
  h : ℚ
deriving DecidableEq, Repr

/-- A canvas 2D context: current state, the `save`/`restore` stack, and the
(unrestorable) list of performed draws standing for the pixel buffer. -/
structure Ctx where
  cur : CtxState
  stack : List CtxState
  draws : List DrawCall
deriving DecidableEq, Repr

/-- `context.save()`: push the current state. -/
def Ctx.save (ctx : Ctx) : Ctx := { ctx with stack := ctx.cur :: ctx.stack }

/-- `context.restore()`: pop into the current state (no-op on an empty
stack, as in the canvas specification). -/
def Ctx.restore (ctx : Ctx) : Ctx :=
  match ctx.stack with
  | [] => ctx
  | s :: rest => { ctx with cur := s, stack := rest }

/-- `context.setTransform(a, b, c, d, e, f)`. -/
def Ctx.setTransform (ctx : Ctx) (a b c d e f : ℚ) : Ctx :=
  { ctx with cur := { ctx.cur with transform := ⟨a, b, c, d, e, f⟩ } }

/-- `context.translate(x, y)`. -/
def Ctx.translate (ctx : Ctx) (x y : ℚ) : Ctx :=
  { ctx with cur :=
      { ctx.cur with transform := ctx.cur.transform.mul (Aff.translateM x y) } }

/-- `context.scale(sx, sy)`. -/
def Ctx.scale (ctx : Ctx) (sx sy : ℚ) : Ctx :=
  { ctx with cur :=
      { ctx.cur with transform := ctx.cur.transform.mul (Aff.scaleM sx sy) } }

/-- `context.beginPath()`. -/
def Ctx.beginPath (ctx : Ctx) : Ctx :=
  { ctx with cur := { ctx.cur with path := [] } }

/-- `context.moveTo(p)`: starts a fresh subpath at `p`. -/
def Ctx.moveTo (ctx : Ctx) (p : Coord) : Ctx :=
  { ctx with cur := { ctx.cur with path := [p] } }

/-- `context.lineTo(p)`. -/
def Ctx.lineTo (ctx : Ctx) (p : Coord) : Ctx :=
  { ctx with cur := { ctx.cur with path := ctx.cur.path ++ [p] } }

/-- `context.closePath()`: no addition to the modelled path geometry. -/
def Ctx.closePath (ctx : Ctx) : Ctx := ctx

/-- `context.clip()`: intersect the clip region with the current path. -/
def Ctx.clip (ctx : Ctx) : Ctx :=
  { ctx with cur := { ctx.cur with clips := ctx.cur.clips ++ [ctx.cur.path] } }

/-- `context.drawImage(image, x, y, w, h)`: record the draw with the
transform in force. -/
def Ctx.drawImage (ctx : Ctx) (img : ℕ) (x y w h : ℚ) : Ctx :=
  { ctx with draws := ctx.draws ++
      [{ transform := ctx.cur.transform, image := img, x := x, y := y,
         w := w, h := h }] }

/-- A source record of `ol.reproj.renderTriangles`: its source-space extent
and its image (width, height and an identity standing for the pixels). -/
structure SourceImage where
  extent : Extent
  width : ℚ
  height : ℚ
  id : ℕ
deriving DecidableEq, Repr

/-- The conditional modulo shift of the three source x coordinates
(`src/unnamed/part_002` lines 99-103). -/
def shiftedXs (needsShift : Bool) (shiftDistance : Option ℚ)
    (x0 x1 x2 : ℚ) : ℚ × ℚ × ℚ :=
  match shiftDistance with
  | some dist =>
    if needsShift then (moduloQ x0 dist, moduloQ x1 dist, moduloQ x2 dist)
    else (x0, x1, x2)
  | none => (x0, x1, x2)

/-- The augmented matrix built per triangle
(`src/unnamed/part_002` lines 92-124): target offsets Y-flipped and divided by
the target resolution, source coordinates modulo-shifted when needed and then
recentred at the first vertex. -/
def triangleMatrix (sourceExtent : Option Extent) (targetResolution : ℚ)
    (targetExtent : Extent) (tri : TriangleB) : ℕ → ℕ → ℚ :=
  let targetTL := getTopLeft targetExtent
  let u0 := tri.target.1.1 - targetTL.1
  let v0 := -(tri.target.1.2 - targetTL.2)
  let u1 := tri.target.2.1.1 - targetTL.1
  let v1 := -(tri.target.2.1.2 - targetTL.2)
  let u2 := tri.target.2.2.1 - targetTL.1
  let v2 := -(tri.target.2.2.2 - targetTL.2)
  let xs := shiftedXs tri.needsShift (sourceExtent.map getWidth)
    tri.source.1.1 tri.source.2.1.1 tri.source.2.2.1
  let srcShiftX := xs.1
  let srcShiftY := tri.source.1.2
  affineAugmented
    0 0 (xs.2.1 - srcShiftX) (tri.source.2.1.2 - srcShiftY)
    (xs.2.2 - srcShiftX) (tri.source.2.2.2 - srcShiftY)
    (u0 / targetResolution) (u1 / targetResolution) (u2 / targetResolution)
    (v0 / targetResolution) (v1 / targetResolution) (v2 / targetResolution)

/-- The affine coefficients solved per triangle
(`src/unnamed/part_002` line 125). -/
def triangleCoefs (sourceExtent : Option Extent) (targetResolution : ℚ)
    (targetExtent : Extent) (tri : TriangleB) : Option (List ℚ) :=
  solveLinearSystem 6 (triangleMatrix sourceExtent targetResolution
    targetExtent tri)

/-- `increasePointDistance` (`src/unnamed/part_002` lines 137-143); the
floating-point `Math.sqrt` is taken as an opaque function parameter (no claim
depends on the enlarged clip triangle's exact coordinates). -/
def increasePointDistance (sqrtFn : ℚ → ℚ) (point anchor : Coord)
    (increment : ℚ) : Coord :=
  let dir := (point.1 - anchor.1, point.2 - anchor.2)
  let distance := sqrtFn (dir.1 * dir.1 + dir.2 * dir.2)
  let scaleFactor := (distance + increment) / distance
  (anchor.1 + scaleFactor * dir.1, anchor.2 + scaleFactor * dir.2)

/-- The per-source-image body of `ol.reproj.renderTriangles`
(`src/unnamed/part_002` lines 158-178): nested save, translate by the image's
top-left minus the source recentring shift, the extra world-width translate
for wrapped triangles when the image's top-left x is left of the threshold
`centerX(sourceExtent)`, the resolution scale with Y flip, the half-pixel
inflated draw, and the nested restore. -/
def renderOneSource (sourceResolution : ℚ) (sourceExtent : Option Extent)
    (needsShift : Bool) (srcShiftX srcShiftY : ℚ) (ctx : Ctx)
    (src : SourceImage) : Ctx :=
  let ctx := ctx.save
  let dataTL := getTopLeft src.extent
  let ctx := ctx.translate (dataTL.1 - srcShiftX) (dataTL.2 - srcShiftY)
  let ctx :=
    match sourceExtent with
    | some se =>
      if needsShift && decide (dataTL.1 < (se.minX + se.maxX) / 2) then
        ctx.translate (getWidth se) 0
      else ctx
    | none => ctx
  let ctx := ctx.scale sourceResolution (-sourceResolution)
  let ctx := ctx.drawImage src.id (-(1 / 2)) (-(1 / 2))
    (src.width + 1) (src.height + 1)
  ctx.restore

/-- The successful branch of the per-triangle body
(`src/unnamed/part_002` lines 130-191), applied to the already-saved context:
set the solved transform, clip to the one-source-pixel-enlarged triangle, draw
every source, restore.  The `goog.DEBUG` stroke block only touches path and
style state and is omitted. -/
def renderTriangleClipped (sourceResolution : ℚ) (sourceExtent : Option Extent)
    (sources : List SourceImage) (sqrtFn : ℚ → ℚ)
    (tri : TriangleB) (cs : List ℚ) (ctx : Ctx) : Ctx :=
  let ctx := ctx.setTransform (cs.getD 0 0) (cs.getD 3 0) (cs.getD 1 0)
    (cs.getD 4 0) (cs.getD 2 0) (cs.getD 5 0)
  let xs := shiftedXs tri.needsShift (sourceExtent.map getWidth)
    tri.source.1.1 tri.source.2.1.1 tri.source.2.2.1
  let srcShiftX := xs.1
  let srcShiftY := tri.source.1.2
  let x1 := xs.2.1 - srcShiftX
  let y1 := tri.source.2.1.2 - srcShiftY
  let x2 := xs.2.2 - srcShiftX
  let y2 := tri.source.2.2.2 - srcShiftY
  let pixelSize := sourceResolution
  let centroid : Coord := ((0 + x1 + x2) / 3, (0 + y1 + y2) / 3)
  let p0 := increasePointDistance sqrtFn (0, 0) centroid pixelSize
  let p1 := increasePointDistance sqrtFn (x1, y1) centroid pixelSize
  let p2 := increasePointDistance sqrtFn (x2, y2) centroid pixelSize
  let ctx := ctx.beginPath
  let ctx := ctx.moveTo p0
  let ctx := ctx.lineTo p1
  let ctx := ctx.lineTo p2
  let ctx := ctx.closePath
  let ctx := ctx.clip
  let ctx := sources.foldl
    (renderOneSource sourceResolution sourceExtent tri.needsShift
      srcShiftX srcShiftY) ctx
  ctx.restore

/-- The per-triangle body of `ol.reproj.renderTriangles`
(`src/unnamed/part_002` lines 69-192): save, solve the affine system (early
return without restore when singular), then the clipped drawing branch. -/
def renderOneTriangle (sourceResolution : ℚ) (sourceExtent : Option Extent)
    (targetResolution : ℚ) (targetExtent : Extent)
    (sources : List SourceImage) (sqrtFn : ℚ → ℚ)
    (ctx : Ctx) (tri : TriangleB) : Ctx :=
  let ctx := ctx.save
  match triangleCoefs sourceExtent targetResolution targetExtent tri with
  | none => ctx
  | some cs =>
    renderTriangleClipped sourceResolution sourceExtent sources sqrtFn
      tri cs ctx

/-- `ol.reproj.renderTriangles` (`src/unnamed/part_002` lines 59-193). -/
def renderTriangles (sourceResolution : ℚ) (sourceExtent : Option Extent)
    (targetResolution : ℚ) (targetExtent : Extent)
    (triangles : List TriangleB) (sources : List SourceImage)
    (sqrtFn : ℚ → ℚ) (ctx : Ctx) : Ctx :=
  triangles.foldl
    (renderOneTriangle sourceResolution sourceExtent targetResolution
      targetExtent sources sqrtFn) ctx

theorem Ctx.restore_cons {ctx : Ctx} {c : CtxState} {s : List CtxState}
    (h : ctx.stack = c :: s) :
    ctx.restore = { ctx with cur := c, stack := s } := by
  unfold Ctx.restore
  rw [h]

/-- A nested per-image save/restore is balanced: each `renderOneSource` call
returns with the stack and the current state it was entered with. -/
theorem renderOneSource_balanced (res : ℚ) (se : Option Extent) (ns : Bool)
    (sx sy : ℚ) (ctx : Ctx) (src : SourceImage) :
    (renderOneSource res se ns sx sy ctx src).stack = ctx.stack ∧
    (renderOneSource res se ns sx sy ctx src).cur = ctx.cur := by
  unfold renderOneSource
  cases se with
  | none =>
    simp [Ctx.save, Ctx.translate, Ctx.scale, Ctx.drawImage, Ctx.restore]
  | some e =>
    dsimp only
    split <;>
      simp [Ctx.save, Ctx.translate, Ctx.scale, Ctx.drawImage, Ctx.restore]

theorem foldl_renderOneSource_balanced (res : ℚ) (se : Option Extent)
    (ns : Bool) (sx sy : ℚ) (sources : List SourceImage) (ctx : Ctx) :
    ((sources.foldl (renderOneSource res se ns sx sy) ctx).stack = ctx.stack ∧
     (sources.foldl (renderOneSource res se ns sx sy) ctx).cur = ctx.cur) := by
  induction sources generalizing ctx with
  | nil => exact ⟨rfl, rfl⟩
  | cons hd tl ih =>
    have h := renderOneSource_balanced res se ns sx sy ctx hd
    have h2 := ih (renderOneSource res se ns sx sy ctx hd)
    exact ⟨h2.1.trans h.1, h2.2.trans h.2⟩

set_option maxHeartbeats 1000000 in
/-- C2 amended: each triangle pushes exactly one state; on the normal path
(solver succeeds) exactly one state is popped at the end and the current state
is fully restored, with one balanced nested push/pop per source image; but on
the early return taken when the solver returns null, the pushed state is not
popped, so over a whole `renderTriangles` run the stack grows by exactly the
number of singular triangles. -/
theorem render_stack_discipline (res : ℚ) (se : Option Extent) (tr : ℚ)
    (te : Extent) (sources : List SourceImage) (sq : ℚ → ℚ) :
    (∀ (ctx : Ctx) (tri : TriangleB) (cs : List ℚ),
      triangleCoefs se tr te tri = some cs →
      (renderOneTriangle res se tr te sources sq ctx tri).stack = ctx.stack ∧
      (renderOneTriangle res se tr te sources sq ctx tri).cur = ctx.cur) ∧
    (∀ (ctx : Ctx) (tri : TriangleB),
      triangleCoefs se tr te tri = none →
      renderOneTriangle res se tr te sources sq ctx tri =
        { ctx with stack := ctx.cur :: ctx.stack }) ∧
    (∀ (ctx : Ctx) (src : SourceImage) (ns : Bool) (sx sy : ℚ),
      (renderOneSource res se ns sx sy ctx src).stack = ctx.stack) ∧
    (∀ (ctx : Ctx) (triangles : List TriangleB),
      (renderTriangles res se tr te triangles sources sq ctx).stack.length =
        ctx.stack.length +
          triangles.countP (fun t => (triangleCoefs se tr te t).isNone)) := by
  have hrestore : ∀ (ns : Bool) (sx sy : ℚ) (ctx2 : Ctx) (c : CtxState)
      (s : List CtxState), ctx2.stack = c :: s →
      ((sources.foldl (renderOneSource res se ns sx sy) ctx2).restore).stack
          = s ∧
      ((sources.foldl (renderOneSource res se ns sx sy) ctx2).restore).cur
          = c := by
    intro ns sx sy ctx2 c s h
    have hb := foldl_renderOneSource_balanced res se ns sx sy sources ctx2
    rw [Ctx.restore_cons (hb.1.trans h)]
    exact ⟨rfl, rfl⟩
  have hclip : ∀ (ctx2 : Ctx) (tri : TriangleB) (cs : List ℚ)
      (c : CtxState) (s : List CtxState), ctx2.stack = c :: s →
      (renderTriangleClipped res se sources sq tri cs ctx2).stack = s ∧
      (renderTriangleClipped res se sources sq tri cs ctx2).cur = c := by
    intro ctx2 tri cs c s h
    unfold renderTriangleClipped
    exact hrestore tri.needsShift _ _ _ c s
      (by simp [Ctx.setTransform, Ctx.beginPath, Ctx.moveTo,
        Ctx.lineTo, Ctx.closePath, Ctx.clip, h])
  have hsome : ∀ (ctx : Ctx) (tri : TriangleB) (cs : List ℚ),
      triangleCoefs se tr te tri = some cs →
      (renderOneTriangle res se tr te sources sq ctx tri).stack = ctx.stack ∧
      (renderOneTriangle res se tr te sources sq ctx tri).cur = ctx.cur := by
    intro ctx tri cs hcs
    have heq : renderOneTriangle res se tr te sources sq ctx tri =
        renderTriangleClipped res se sources sq tri cs ctx.save := by
      unfold renderOneTriangle
      rw [hcs]
    rw [heq]
    exact hclip ctx.save tri cs ctx.cur ctx.stack rfl
  have hnone : ∀ (ctx : Ctx) (tri : TriangleB),
      triangleCoefs se tr te tri = none →
      renderOneTriangle res se tr te sources sq ctx tri =
        { ctx with stack := ctx.cur :: ctx.stack } := by
    intro ctx tri h
    have heq : renderOneTriangle res se tr te sources sq ctx tri = ctx.save := by
      unfold renderOneTriangle
      rw [h]
    rw [heq]
    rfl
  refine ⟨hsome, hnone, ?_, ?_⟩
  · intro ctx src ns sx sy
    exact (renderOneSource_balanced res se ns sx sy ctx src).1
  · intro ctx triangles
    induction triangles generalizing ctx with
    | nil => simp [renderTriangles]
    | cons hd tl ih =>
      have hstep : renderTriangles res se tr te (hd :: tl) sources sq ctx =
          renderTriangles res se tr te tl sources sq
            (renderOneTriangle res se tr te sources sq ctx hd) := rfl
      rw [hstep, ih]
      rcases hcs : triangleCoefs se tr te hd with _ | cs
      · rw [hnone ctx hd hcs]
        simp [List.countP_cons, hcs]
        omega
      · rw [(hsome ctx hd cs hcs).1]
        simp [List.countP_cons, hcs]

/-- A fresh canvas context. -/
def ctx0 : Ctx :=
  { cur := { transform := Aff.idM, clips := [], path := [] },
    stack := [], draws := [] }

/-- A degenerate triangle: all three source points identical, so the affine
system is singular. -/
def triDeg : TriangleB :=
  { source := ((1, 1), (1, 1), (1, 1)), target := ((0, 0), (1, 0), (0, 1)),
    needsShift := false }

/-- A well-formed triangle whose affine system is non-singular. -/
def triOk : TriangleB :=
  { source := ((0, 0), (1, 0), (0, 1)), target := ((0, 0), (1, 0), (0, 1)),
    needsShift := false }

/-- C2 counterexample: rendering a single triangle whose linear solve is
singular leaves one saved state on the destination stack - the early return
skips the balancing `restore`, so the stack is not balanced on every exit
path. -/
theorem singular_triangle_leaks_save :
    triangleCoefs none 1 ⟨0, 0, 1, 1⟩ triDeg = none ∧
    (renderTriangles 1 none 1 ⟨0, 0, 1, 1⟩ [triDeg]
        [⟨⟨0, 0, 1, 1⟩, 1, 1, 0⟩] (fun q => q) ctx0).stack.length = 1 := by
  with_unfolding_all decide

/-- C2 amended witness: the stack behaviour at concrete triangles (one
solvable, one singular). -/
theorem render_stack_discipline_witness :
    (renderOneTriangle 1 none 1 ⟨0, 0, 1, 1⟩ [] (fun q => q) ctx0
        triOk).stack = ctx0.stack ∧
    renderOneTriangle 1 none 1 ⟨0, 0, 1, 1⟩ [] (fun q => q) ctx0 triDeg =
      { ctx0 with stack := ctx0.cur :: ctx0.stack } ∧
    (renderTriangles 1 none 1 ⟨0, 0, 1, 1⟩ [triOk, triDeg] [] (fun q => q)
        ctx0).stack.length = 1 := by
  have h := render_stack_discipline 1 none 1 ⟨0, 0, 1, 1⟩ [] (fun q => q)
  refine ⟨(h.1 ctx0 triOk [1, 0, 0, 0, -1, 1]
      (by with_unfolding_all decide)).1,
    h.2.1 ctx0 triDeg (by with_unfolding_all decide), ?_⟩
  rw [h.2.2.2 ctx0 [triOk, triDeg]]
  with_unfolding_all decide

/-- C4: with a positive world width, a `needsShift` triangle has its three
source x coordinates replaced by their mathematical modulo (each landing in
`[0, shiftDistance)`) before the affine system is assembled and solved, while
a triangle without `needsShift` keeps them unchanged; and each source image is
drawn under the transform with the additional `(+shiftDistance, 0)` translate
exactly when the triangle needs the shift and the image extent's top-left x is
strictly below `centerX(sourceExtent)`. -/
theorem wrap_shift_semantics (se : Extent) (x0 x1 x2 : ℚ)
    (dOpt : Option ℚ) (res sx sy : ℚ) (ctx : Ctx) (src : SourceImage)
    (ns : Bool) (tri : TriangleB) (tr : ℚ) (te : Extent)
    (hw : 0 < getWidth se) :
    (shiftedXs true (some (getWidth se)) x0 x1 x2 =
        (moduloQ x0 (getWidth se), moduloQ x1 (getWidth se),
         moduloQ x2 (getWidth se)) ∧
      (0 ≤ moduloQ x0 (getWidth se) ∧ moduloQ x0 (getWidth se) < getWidth se) ∧
      (0 ≤ moduloQ x1 (getWidth se) ∧ moduloQ x1 (getWidth se) < getWidth se) ∧
      (0 ≤ moduloQ x2 (getWidth se) ∧
        moduloQ x2 (getWidth se) < getWidth se)) ∧
    (shiftedXs false dOpt x0 x1 x2 = (x0, x1, x2)) ∧
    (tri.needsShift = true →
      triangleMatrix (some se) tr te tri 1 0 =
        moduloQ tri.source.2.1.1 (getWidth se) -
          moduloQ tri.source.1.1 (getWidth se) ∧
      triangleMatrix (some se) tr te tri 4 3 =
        moduloQ tri.source.2.1.1 (getWidth se) -
          moduloQ tri.source.1.1 (getWidth se)) ∧
    ((renderOneSource res (some se) ns sx sy ctx src).draws =
      ctx.draws ++
        [{ transform :=
             ((ctx.cur.transform.mul
                 (Aff.translateM ((getTopLeft src.extent).1 - sx)
                   ((getTopLeft src.extent).2 - sy))).mul
               (if ns = true ∧
                   (getTopLeft src.extent).1 < (se.minX + se.maxX) / 2 then
                  Aff.translateM (getWidth se) 0
                else Aff.idM)).mul
             (Aff.scaleM res (-res)),
           image := src.id, x := -(1 / 2), y := -(1 / 2),
           w := src.width + 1, h := src.height + 1 }]) := by
  refine ⟨⟨by simp [shiftedXs], ⟨moduloQ_nonneg _ _ hw, moduloQ_lt _ _ hw⟩,
    ⟨moduloQ_nonneg _ _ hw, moduloQ_lt _ _ hw⟩,
    ⟨moduloQ_nonneg _ _ hw, moduloQ_lt _ _ hw⟩⟩, ?_, ?_, ?_⟩
  · cases dOpt <;> simp [shiftedXs]
  · intro h
    constructor <;>
      simp [triangleMatrix, affineAugmented, ofLists, shiftedXs, h,
        Option.map_some]
  · by_cases hc : ns = true ∧ (getTopLeft src.extent).1 <
        (se.minX + se.maxX) / 2
    · have hb : (ns && decide ((getTopLeft src.extent).1 <
          (se.minX + se.maxX) / 2)) = true := by
        simp [hc.1, hc.2]
      simp [renderOneSource, hb, hc, Ctx.save, Ctx.translate, Ctx.scale,
        Ctx.drawImage, Ctx.restore]
    · have hb : (ns && decide ((getTopLeft src.extent).1 <
          (se.minX + se.maxX) / 2)) = false := by
        rcases Decidable.not_and_iff_or_not.mp hc with h | h
        · simp [Bool.eq_false_iff.mpr h]
        · simp [h]
      simp [renderOneSource, hb, hc, Aff.mul_idM, Ctx.save, Ctx.translate,
        Ctx.scale, Ctx.drawImage, Ctx.restore]

/-- C4 witness: the shift semantics at concrete inputs. -/
theorem wrap_shift_semantics_witness :
    (shiftedXs true (some (getWidth ⟨-180, -90, 180, 90⟩)) 190 (-170) 10 =
        (moduloQ 190 (getWidth ⟨-180, -90, 180, 90⟩),
         moduloQ (-170) (getWidth ⟨-180, -90, 180, 90⟩),
         moduloQ 10 (getWidth ⟨-180, -90, 180, 90⟩)) ∧
      (0 ≤ moduloQ 190 (getWidth ⟨-180, -90, 180, 90⟩) ∧
        moduloQ 190 (getWidth ⟨-180, -90, 180, 90⟩) <
          getWidth ⟨-180, -90, 180, 90⟩) ∧
      (0 ≤ moduloQ (-170) (getWidth ⟨-180, -90, 180, 90⟩) ∧
        moduloQ (-170) (getWidth ⟨-180, -90, 180, 90⟩) <
          getWidth ⟨-180, -90, 180, 90⟩) ∧
      (0 ≤ moduloQ 10 (getWidth ⟨-180, -90, 180, 90⟩) ∧
        moduloQ 10 (getWidth ⟨-180, -90, 180, 90⟩) <
          getWidth ⟨-180, -90, 180, 90⟩)) ∧
    (shiftedXs false (some 360) 190 (-170) 10 = (190, -170, 10)) ∧
    (triDeg.needsShift = true →
      triangleMatrix (some ⟨-180, -90, 180, 90⟩) 1 ⟨0, 0, 1, 1⟩ triDeg 1 0 =
        moduloQ triDeg.source.2.1.1 (getWidth ⟨-180, -90, 180, 90⟩) -
          moduloQ triDeg.source.1.1 (getWidth ⟨-180, -90, 180, 90⟩) ∧
      triangleMatrix (some ⟨-180, -90, 180, 90⟩) 1 ⟨0, 0, 1, 1⟩ triDeg 4 3 =
        moduloQ triDeg.source.2.1.1 (getWidth ⟨-180, -90, 180, 90⟩) -
          moduloQ triDeg.source.1.1 (getWidth ⟨-180, -90, 180, 90⟩)) ∧
    ((renderOneSource 1 (some ⟨-180, -90, 180, 90⟩) true 10 0 ctx0
        ⟨⟨-180, 0, 0, 10⟩, 1, 1, 0⟩).draws =
      ctx0.draws ++
        [{ transform :=
             ((ctx0.cur.transform.mul
                 (Aff.translateM ((getTopLeft (⟨-180, 0, 0, 10⟩ : Extent)).1 - 10)
                   ((getTopLeft (⟨-180, 0, 0, 10⟩ : Extent)).2 - 0))).mul
               (if (true : Bool) = true ∧
                   (getTopLeft (⟨-180, 0, 0, 10⟩ : Extent)).1 <
                     (((-180 : ℚ)) + 180) / 2 then
                  Aff.translateM (getWidth ⟨-180, -90, 180, 90⟩) 0
                else Aff.idM)).mul
             (Aff.scaleM 1 (-1)),
           image := 0, x := -(1 / 2), y := -(1 / 2),
           w := (1 : ℚ) + 1, h := (1 : ℚ) + 1 }]) :=
  wrap_shift_semantics ⟨-180, -90, 180, 90⟩ 190 (-170) 10 (some 360) 1 10 0
    ctx0 ⟨⟨-180, 0, 0, 10⟩, 1, 1, 0⟩ true triDeg 1 ⟨0, 0, 1, 1⟩
    (by with_unfolding_all decide)

theorem isInside_true_iff (a b p : Coord) :
    isInside a b p = true ↔ crossF a b p ≤ 0 := by
  simp [isInside]

theorem isInside_false_iff (a b p : Coord) :
    isInside a b p = false ↔ ¬ crossF a b p ≤ 0 := by
  simp [isInside]

/-- In a crossing situation the two-line formula returns the point of the
segment `S → E` at parameter `t = f(S) / (f(S) - f(E))`, where `f` is the
signed cross product against the edge. -/
theorem getLineIntersection_crossing (S E a b : Coord)
    (hne : crossF a b S ≠ crossF a b E) :
    getLineIntersection (S, E) (a, b) =
      (S.1 + crossF a b S / (crossF a b S - crossF a b E) * (E.1 - S.1),
       S.2 + crossF a b S / (crossF a b S - crossF a b E) * (E.2 - S.2)) := by
  have hde : (S.1 - E.1) * (a.2 - b.2) - (S.2 - E.2) * (a.1 - b.1) =
      crossF a b S - crossF a b E := by
    unfold crossF
    ring
  have hsub : crossF a b S - crossF a b E ≠ 0 := sub_ne_zero_of_ne hne
  unfold getLineIntersection
  simp only [hde, if_neg hsub]
  rw [Prod.mk.injEq]
  unfold crossF at *
  constructor <;> field_simp <;> ring

/-- The cross product is affine along a segment. -/
theorem crossF_combo (a b S E : Coord) (t : ℚ) :
    crossF a b (S.1 + t * (E.1 - S.1), S.2 + t * (E.2 - S.2)) =
      crossF a b S + t * (crossF a b E - crossF a b S) := by
  unfold crossF
  ring

theorem crossing_t_mem {fS fE : ℚ}
    (h : (fS ≤ 0 ∧ 0 < fE) ∨ (fE ≤ 0 ∧ 0 < fS)) :
    0 ≤ fS / (fS - fE) ∧ fS / (fS - fE) ≤ 1 := by
  rcases h with ⟨h1, h2⟩ | ⟨h1, h2⟩
  · have hd : fS - fE < 0 := by linarith
    constructor
    · rw [div_nonneg_iff]
      right
      exact ⟨h1, hd.le⟩
    · rw [div_le_one_iff]
      right; right
      exact ⟨hd, by linarith⟩
  · have hd : 0 < fS - fE := by linarith
    constructor
    · rw [div_nonneg_iff]
      left
      exact ⟨h2.le, hd.le⟩
    · rw [div_le_one_iff]
      left
      exact ⟨hd, by linarith⟩

/-- Soundness of one Sutherland-Hodgman pass: if all input vertices satisfy a
predicate closed under convex combinations, then every output vertex satisfies
it and also lies in the closed half-plane of this clipping edge. -/
theorem clipPass_sound (a b : Coord) (Q : Coord → Prop)
    (hconvex : ∀ S E t, Q S → Q E → 0 ≤ t → t ≤ 1 →
      Q (S.1 + t * (E.1 - S.1), S.2 + t * (E.2 - S.2)))
    (vs : List Coord) (hvs : ∀ v ∈ vs, Q v) :
    ∀ w ∈ clipPass (a, b) vs, Q w ∧ crossF a b w ≤ 0 := by
  have hinter : ∀ S E : Coord, Q S → Q E →
      ((crossF a b S ≤ 0 ∧ 0 < crossF a b E) ∨
       (crossF a b E ≤ 0 ∧ 0 < crossF a b S)) →
      Q (getLineIntersection (S, E) (a, b)) ∧
        crossF a b (getLineIntersection (S, E) (a, b)) ≤ 0 := by
    intro S E hQS hQE hcross
    have hne : crossF a b S ≠ crossF a b E := by
      rcases hcross with ⟨u, v⟩ | ⟨u, v⟩ <;> intro hEq <;> linarith
    rw [getLineIntersection_crossing S E a b hne]
    obtain ⟨ht0, ht1⟩ := crossing_t_mem hcross
    refine ⟨hconvex S E _ hQS hQE ht0 ht1, ?_⟩
    rw [crossF_combo]
    have : crossF a b S + crossF a b S / (crossF a b S - crossF a b E) *
        (crossF a b E - crossF a b S) = 0 := by
      have hsub : crossF a b S - crossF a b E ≠ 0 := sub_ne_zero_of_ne hne
      field_simp
      ring
    rw [this]
  have aux : ∀ (l : List Coord) (acc : List Coord × Coord),
      (∀ w ∈ acc.1, Q w ∧ crossF a b w ≤ 0) → Q acc.2 →
      (∀ v ∈ l, Q v) →
      ∀ w ∈ (l.foldl (clipPassStep (a, b)) acc).1, Q w ∧ crossF a b w ≤ 0 := by
    intro l
    induction l with
    | nil =>
      intro acc hacc _ _ w hw
      exact hacc w hw
    | cons E rest ih =>
      intro acc hacc hQS hl w hw
      rw [List.foldl_cons] at hw
      have hQE : Q E := hl E (List.mem_cons_self _ _)
      have hstep : ∀ u ∈ (clipPassStep (a, b) acc E).1,
          Q u ∧ crossF a b u ≤ 0 := by
        intro u hu
        unfold clipPassStep at hu
        dsimp only at hu
        cases hE : isInside a b E <;> cases hS : isInside a b acc.2 <;>
          simp only [hE, hS, Bool.not_true, Bool.not_false, if_true, if_false,
            Bool.false_eq_true, Bool.true_eq_false, ite_true, ite_false,
            List.mem_append, List.mem_singleton, List.mem_cons,
            List.not_mem_nil, or_false] at hu
        · exact hacc u hu
        · rcases hu with hu | hu
          · exact hacc u hu
          · subst hu
            have hfS : crossF a b acc.2 ≤ 0 := (isInside_true_iff a b _).mp hS
            have hfE : ¬ crossF a b E ≤ 0 := by
              have := (isInside_false_iff a b E).mp hE
              exact this
            exact hinter acc.2 E hQS hQE (Or.inl ⟨hfS, lt_of_not_le hfE⟩)
        · rcases hu with hu | hu | hu
          · exact hacc u hu
          · subst hu
            have hfE : crossF a b E ≤ 0 := (isInside_true_iff a b E).mp hE
            have hfS : ¬ crossF a b acc.2 ≤ 0 := (isInside_false_iff a b _).mp hS
            exact hinter acc.2 E hQS hQE (Or.inr ⟨hfE, lt_of_not_le hfS⟩)
          · rw [hu]
            exact ⟨hQE, (isInside_true_iff a b E).mp hE⟩
        · rcases hu with hu | hu
          · exact hacc u hu
          · rw [hu]
            exact ⟨hQE, (isInside_true_iff a b E).mp hE⟩
      exact ih (clipPassStep (a, b) acc E) hstep hQE
        (fun v hv => hl v (List.mem_cons_of_mem _ hv)) w hw
  intro w hw
  unfold clipPass at hw
  cases hlast : vs.getLast? with
  | none =>
    rw [hlast] at hw
    cases hw
  | some S0 =>
    rw [hlast] at hw
    have hS0 : S0 ∈ vs := by
      rw [List.getLast?_eq_getElem?] at hlast
      exact List.getElem?_mem hlast
    exact aux vs ([], S0) (by intro u hu; cases hu) (hvs S0 hS0) hvs w hw

/-- A pass whose input lies entirely in the closed half-plane of its edge
returns the input unchanged (vertices exactly on the edge included, because
the inside test uses `<= 0`). -/
theorem clipPass_id (a b : Coord) (vs : List Coord)
    (h : ∀ v ∈ vs, crossF a b v ≤ 0) : clipPass (a, b) vs = vs := by
  have aux : ∀ (l : List Coord) (out : List Coord) (S : Coord),
      crossF a b S ≤ 0 → (∀ v ∈ l, crossF a b v ≤ 0) →
      (l.foldl (clipPassStep (a, b)) (out, S)).1 = out ++ l := by
    intro l
    induction l with
    | nil =>
      intro out S _ _
      simp
    | cons E rest ih =>
      intro out S hS hl
      rw [List.foldl_cons]
      have hE := hl E (List.mem_cons_self _ _)
      have hstep : clipPassStep (a, b) (out, S) E = (out ++ [E], E) := by
        unfold clipPassStep
        simp [isInside, hE, hS]
      rw [hstep,
        ih (out ++ [E]) E hE (fun v hv => hl v (List.mem_cons_of_mem _ hv))]
      simp
  cases vs with
  | nil => rfl
  | cons x xs =>
    unfold clipPass
    cases hlast : (x :: xs).getLast? with
    | none =>
      rw [List.getLast?_eq_getElem?] at hlast
      simp at hlast
    | some S0 =>
      have hS0 : S0 ∈ x :: xs := by
        rw [List.getLast?_eq_getElem?] at hlast
        exact List.getElem?_mem hlast
      show (List.foldl (clipPassStep (a, b)) ([], S0) (x :: xs)).1 = x :: xs
      rw [aux (x :: xs) [] S0 (h S0 hS0) h]
      simp

theorem crossF_convex (p q S E : Coord) (t : ℚ) (hS : crossF p q S ≤ 0)
    (hE : crossF p q E ≤ 0) (h0 : 0 ≤ t) (h1 : t ≤ 1) :
    crossF p q (S.1 + t * (E.1 - S.1), S.2 + t * (E.2 - S.2)) ≤ 0 := by
  rw [crossF_combo]
  nlinarith

theorem crossF_top (ext : Extent) (w : Coord) :
    crossF (getTopLeft ext) (getTopRight ext) w =
      (ext.maxX - ext.minX) * (w.2 - ext.maxY) := by
  unfold crossF getTopLeft getTopRight
  ring

theorem crossF_right (ext : Extent) (w : Coord) :
    crossF (getTopRight ext) (getBottomRight ext) w =
      (ext.maxY - ext.minY) * (w.1 - ext.maxX) := by
  unfold crossF getTopRight getBottomRight
  ring

theorem crossF_bottom (ext : Extent) (w : Coord) :
    crossF (getBottomRight ext) (getBottomLeft ext) w =
      (ext.maxX - ext.minX) * (ext.minY - w.2) := by
  unfold crossF getBottomRight getBottomLeft
  ring

theorem crossF_left (ext : Extent) (w : Coord) :
    crossF (getBottomLeft ext) (getTopLeft ext) w =
      (ext.maxY - ext.minY) * (ext.minX - w.1) := by
  unfold crossF getBottomLeft getTopLeft
  ring

theorem le_of_mul_sub_nonpos {c x y : ℚ} (hc : 0 < c)
    (h : c * (x - y) ≤ 0) : x ≤ y := by
  nlinarith

/-- Membership of a coordinate in the closed rectangle of an extent. -/
def inBox (ext : Extent) (w : Coord) : Prop :=
  ext.minX ≤ w.1 ∧ w.1 ≤ ext.maxX ∧ ext.minY ≤ w.2 ∧ w.2 ≤ ext.maxY

/-- C8: for a proper rectangle, every vertex output by the Sutherland-Hodgman
clipping stage lies within the rectangle (boundary points included, because
the inside test uses `<= 0`); any input ring lying entirely inside is returned
unchanged; and a fully-inside quad is triangulated as exactly the two
triangles of its 0-2 diagonal split. -/
theorem clip_stage_correct (ext : Extent) (hx : ext.minX < ext.maxX)
    (hy : ext.minY < ext.maxY) :
    (∀ (vs : List Coord) (w : Coord), w ∈ clipRing ext vs → inBox ext w) ∧
    (∀ vs : List Coord, (∀ v ∈ vs, inBox ext v) → clipRing ext vs = vs) ∧
    (∀ a b c d : Coord, inBox ext a → inBox ext b → inBox ext c →
      inBox ext d →
      triangulateQuadExtentIntersection a b c d ext = [a, b, c, a, c, d]) := by
  have hring : ∀ vs : List Coord, clipRing ext vs =
      clipPass (getBottomLeft ext, getTopLeft ext)
        (clipPass (getBottomRight ext, getBottomLeft ext)
          (clipPass (getTopRight ext, getBottomRight ext)
            (clipPass (getTopLeft ext, getTopRight ext) vs))) := by
    intro vs
    rfl
  have hpart2 : ∀ vs : List Coord, (∀ v ∈ vs, inBox ext v) →
      clipRing ext vs = vs := by
    intro vs hvs
    have hf1 : ∀ v ∈ vs, crossF (getTopLeft ext) (getTopRight ext) v ≤ 0 := by
      intro v hv
      rw [crossF_top]
      exact mul_nonpos_of_nonneg_of_nonpos (by linarith)
        (by have := (hvs v hv).2.2.2; linarith)
    have hf2 : ∀ v ∈ vs,
        crossF (getTopRight ext) (getBottomRight ext) v ≤ 0 := by
      intro v hv
      rw [crossF_right]
      exact mul_nonpos_of_nonneg_of_nonpos (by linarith)
        (by have := (hvs v hv).2.1; linarith)
    have hf3 : ∀ v ∈ vs,
        crossF (getBottomRight ext) (getBottomLeft ext) v ≤ 0 := by
      intro v hv
      rw [crossF_bottom]
      exact mul_nonpos_of_nonneg_of_nonpos (by linarith)
        (by have := (hvs v hv).2.2.1; linarith)
    have hf4 : ∀ v ∈ vs, crossF (getBottomLeft ext) (getTopLeft ext) v ≤ 0 := by
      intro v hv
      rw [crossF_left]
      exact mul_nonpos_of_nonneg_of_nonpos (by linarith)
        (by have := (hvs v hv).1; linarith)
    rw [hring, clipPass_id _ _ vs hf1, clipPass_id _ _ vs hf2,
      clipPass_id _ _ vs hf3, clipPass_id _ _ vs hf4]
  refine ⟨?_, hpart2, ?_⟩
  · intro vs w hw
    rw [hring] at hw
    have h1 := clipPass_sound (getTopLeft ext) (getTopRight ext)
      (fun _ => True) (fun S E t _ _ _ _ => trivial) vs
      (fun v _ => trivial)
    have h2 := clipPass_sound (getTopRight ext) (getBottomRight ext)
      (fun p => crossF (getTopLeft ext) (getTopRight ext) p ≤ 0)
      (fun S E t hS hE h0 ht => crossF_convex _ _ S E t hS hE h0 ht)
      _ (fun v hv => (h1 v hv).2)
    have h3 := clipPass_sound (getBottomRight ext) (getBottomLeft ext)
      (fun p => crossF (getTopLeft ext) (getTopRight ext) p ≤ 0 ∧
                crossF (getTopRight ext) (getBottomRight ext) p ≤ 0)
      (fun S E t hS hE h0 ht =>
        ⟨crossF_convex _ _ S E t hS.1 hE.1 h0 ht,
         crossF_convex _ _ S E t hS.2 hE.2 h0 ht⟩)
      _ (fun v hv => h2 v hv)
    have h4 := clipPass_sound (getBottomLeft ext) (getTopLeft ext)
      (fun p => (crossF (getTopLeft ext) (getTopRight ext) p ≤ 0 ∧
                 crossF (getTopRight ext) (getBottomRight ext) p ≤ 0) ∧
                crossF (getBottomRight ext) (getBottomLeft ext) p ≤ 0)
      (fun S E t hS hE h0 ht =>
        ⟨⟨crossF_convex _ _ S E t hS.1.1 hE.1.1 h0 ht,
          crossF_convex _ _ S E t hS.1.2 hE.1.2 h0 ht⟩,
         crossF_convex _ _ S E t hS.2 hE.2 h0 ht⟩)
      _ (fun v hv => h3 v hv)
    obtain ⟨⟨⟨hc1, hc2⟩, hc3⟩, hc4⟩ := h4 w hw
    rw [crossF_top] at hc1
    rw [crossF_right] at hc2
    rw [crossF_bottom] at hc3
    rw [crossF_left] at hc4
    exact ⟨by have := le_of_mul_sub_nonpos (by linarith) hc4; linarith,
      by have := le_of_mul_sub_nonpos (by linarith) hc2; linarith,
      by have := le_of_mul_sub_nonpos (by linarith) hc3; linarith,
      by have := le_of_mul_sub_nonpos (by linarith) hc1; linarith⟩
  · intro a b c d ha hb hc hd
    have hclip : clipRing ext [a, b, c, d] = [a, b, c, d] := by
      apply hpart2
      intro v hv
      rcases List.mem_cons.mp hv with h | hv
      · exact h ▸ ha
      rcases List.mem_cons.mp hv with h | hv
      · exact h ▸ hb
      rcases List.mem_cons.mp hv with h | hv
      · exact h ▸ hc
      rcases List.mem_cons.mp hv with h | hv
      · exact h ▸ hd
      cases hv
    unfold triangulateQuadExtentIntersection
    rw [hclip]
    rfl

/-- C8 witness: the clipping-stage properties at a concrete rectangle, with
the two-triangle split of a concrete fully-inside quad. -/
theorem clip_stage_correct_witness :
    (∀ vs : List Coord,
      (∀ v ∈ vs, inBox ⟨0, 0, 10, 10⟩ v) → clipRing ⟨0, 0, 10, 10⟩ vs = vs) ∧
    triangulateQuadExtentIntersection (1, 9) (9, 9) (9, 1) (1, 1)
      ⟨0, 0, 10, 10⟩ = [(1, 9), (9, 9), (9, 1), (1, 9), (9, 1), (1, 1)] := by
  have h := clip_stage_correct ⟨0, 0, 10, 10⟩ (by norm_num) (by norm_num)
  refine ⟨h.2.1, h.2.2 (1, 9) (9, 9) (9, 1) (1, 1) ?_ ?_ ?_ ?_⟩ <;>
    exact ⟨by norm_num, by norm_num, by norm_num, by norm_num⟩

theorem findPivot_fold (A : ℕ → ℕ → ℚ) (i : ℕ) :
    ∀ (l : List ℕ) (acc : ℕ × ℚ), acc.2 = |A acc.1 i| →
      ((l.foldl (fun best r => if |A r i| > best.2 then (r, |A r i|) else best)
          acc).2 =
        |A (l.foldl (fun best r => if |A r i| > best.2 then (r, |A r i|)
          else best) acc).1 i| ∧
       ((l.foldl (fun best r => if |A r i| > best.2 then (r, |A r i|)
          else best) acc).1 = acc.1 ∨
        (l.foldl (fun best r => if |A r i| > best.2 then (r, |A r i|)
          else best) acc).1 ∈ l) ∧
       acc.2 ≤ (l.foldl (fun best r => if |A r i| > best.2 then (r, |A r i|)
          else best) acc).2 ∧
       ∀ r ∈ l, |A r i| ≤ (l.foldl (fun best r => if |A r i| > best.2
          then (r, |A r i|) else best) acc).2) := by
  intro l
  induction l with
  | nil =>
    intro acc hacc
    exact ⟨hacc, Or.inl rfl, le_refl _, by intro r hr; cases hr⟩
  | cons r0 rest ih =>
    intro acc hacc
    rw [List.foldl_cons]
    by_cases hgt : |A r0 i| > acc.2
    · rw [if_pos hgt]
      obtain ⟨h1, h2, h3, h4⟩ := ih (r0, |A r0 i|) rfl
      refine ⟨h1, ?_, le_trans (le_of_lt hgt) h3, ?_⟩
      · rcases h2 with h | h
        · exact Or.inr (h ▸ List.mem_cons_self _ _)
        · exact Or.inr (List.mem_cons_of_mem _ h)
      · intro r hr
        rcases List.mem_cons.mp hr with h | h
        · subst h
          exact h3
        · exact h4 r h
    · rw [if_neg hgt]
      obtain ⟨h1, h2, h3, h4⟩ := ih acc hacc
      refine ⟨h1, ?_, h3, ?_⟩
      · rcases h2 with h | h
        · exact Or.inl h
        · exact Or.inr (List.mem_cons_of_mem _ h)
      · intro r hr
        rcases List.mem_cons.mp hr with h | h
        · subst h
          exact le_trans (le_of_not_lt hgt) h3
        · exact h4 r h

/-- The pivot search returns a row in `[i, n)` holding the maximal absolute
value of column `i` over rows `i..n-1`. -/
theorem findPivot_spec (A : ℕ → ℕ → ℚ) (n i : ℕ) (hi : i < n) :
    (i ≤ (findPivot A n i).1 ∧ (findPivot A n i).1 < n) ∧
    (findPivot A n i).2 = |A (findPivot A n i).1 i| ∧
    ∀ r, i ≤ r → r < n → |A r i| ≤ (findPivot A n i).2 := by
  have key := findPivot_fold A i (List.range' (i + 1) (n - (i + 1)))
    (i, |A i i|) rfl
  obtain ⟨h1, h2, h3, h4⟩ := key
  have hmem : ∀ m ∈ List.range' (i + 1) (n - (i + 1)),
      i + 1 ≤ m ∧ m < n := by
    intro m hm
    rw [List.mem_range'] at hm
    omega
  refine ⟨?_, h1, ?_⟩
  · unfold findPivot
    rcases h2 with h | h
    · rw [h]
      exact ⟨le_refl i, hi⟩
    · obtain ⟨hm1, hm2⟩ := hmem _ h
      exact ⟨by omega, hm2⟩
  · intro r hr hrn
    rcases Nat.eq_or_lt_of_le hr with h | h
    · subst h
      exact h3
    · exact h4 r (List.mem_range'.mpr ⟨r - (i + 1), by omega, by omega⟩)

/-- Rows `>= i` have zeros in all columns `< i`. -/
def ZeroBelow (A : ℕ → ℕ → ℚ) (n i : ℕ) : Prop :=
  ∀ r, i ≤ r → r < n → ∀ k, k < i → A r k = 0

/-- Row `l` is a valid upper-triangular row: nonzero diagonal and zeros to
the left of it. -/
def diagOK (A : ℕ → ℕ → ℚ) (l : ℕ) : Prop :=
  A l l ≠ 0 ∧ ∀ k, k < l → A l k = 0

/-- The dot product of the first `n` entries of row `r` with `x`. -/
def rowSum (A : ℕ → ℕ → ℚ) (n r : ℕ) (x : ℕ → ℚ) : ℚ :=
  ∑ k ∈ Finset.range n, A r k * x k

/-- `x` satisfies every one of the `n` equations of the augmented system. -/
def solves (A : ℕ → ℕ → ℚ) (n : ℕ) (x : ℕ → ℚ) : Prop :=
  ∀ r, r < n → rowSum A n r x = A r n

/-- The spec's midpoint estimate, written from the spec's words for comparison
with the code: the average of the quad's four inverse-projected source
corners, with the x components of the estimate and of the inverse-projected
center reduced modulo the source world width for a wrapping quad. -/
def specCenterSrcErrorSquared (env : TriEnvA) (wrapsX : Bool)
    (aSrc bSrc cSrc dSrc centerSrc : Coord) : ℚ :=
  let estimX := (aSrc.1 + bSrc.1 + cSrc.1 + dSrc.1) / 4
  let estimY := (aSrc.2 + bSrc.2 + cSrc.2 + dSrc.2) / 4
  let dx : ℚ :=
    if wrapsX then
      moduloQ estimX env.sourceWorldWidth -
        moduloQ centerSrc.1 env.sourceWorldWidth
    else estimX - centerSrc.1
  let dy : ℚ := estimY - centerSrc.2
  dx * dx + dy * dy

/-- C3: a quad reaching the refinement step is classified wrapping exactly when
the source projection can wrap in x and the ratio of the width of the bounding
extent of its four source corners to the source world width lies strictly
between one half and one. -/
theorem quad_wrap_classification (env : TriEnvA) (aSrc bSrc cSrc dSrc : Coord) :
    quadWrapsX env (boundingExtent4 aSrc bSrc cSrc dSrc) = true ↔
      (env.sourceProj.canWrapX = true ∧
       1 / 2 < (max (max (max aSrc.1 bSrc.1) cSrc.1) dSrc.1 -
                min (min (min aSrc.1 bSrc.1) cSrc.1) dSrc.1) /
               getWidth env.sourceProj.extent ∧
       (max (max (max aSrc.1 bSrc.1) cSrc.1) dSrc.1 -
        min (min (min aSrc.1 bSrc.1) cSrc.1) dSrc.1) /
               getWidth env.sourceProj.extent < 1) := by
  simp [quadWrapsX, srcCoverageX, boundingExtent4, getWidth,
    TriEnvA.sourceWorldWidth, and_assoc, gt_iff_lt]

/-- A concrete environment with a constant inverse transform: every target
point maps to the single source point (5, 5). -/
def envC6 : TriEnvA :=
  { sourceProj := { extent := ⟨-180, -90, 180, 90⟩,
                    canWrapX := false, isGlobal := false }
    transformInv := fun _ => (5, 5)
    transformFwd := fun p => p
    maxSourceExtent := none
    errorThresholdSquared := 1
    maxTriangleWidth := 1 / 4 }

/-- C6 counterexample: the triangulation built for the target extent
`[0, 0, 1, 1]` with a constant inverse transform emits two triangles whose
three source points are all the identical coordinate (5, 5); no degenerate
triangle is dropped. -/
theorem degenerate_triangles_emitted :
    ((buildTriangulationA envC6 ⟨0, 0, 1, 1⟩ 10).triangles.map
        TriangleA.source)
      = [((5, 5), (5, 5), (5, 5)), ((5, 5), (5, 5), (5, 5))] := by
  with_unfolding_all decide

/-- C6 amended: `addQuadIfValid_` never filters degenerate triangles: a leaf
quad with no source-extent clipping configured always appends exactly the two
diagonal triangles `(a, c, d)` and `(a, b, c)`, whatever the source corners
(in particular when all four coincide). -/
theorem leaf_quad_emits_unconditionally (env : TriEnvA) (st : TriStateA)
    (a b c d aSrc bSrc cSrc dSrc : Coord) (h : env.maxSourceExtent = none) :
    (addQuadIfValidA env 0 st a b c d aSrc bSrc cSrc dSrc).triangles =
      st.triangles ++
        [{ source := (aSrc, cSrc, dSrc), target := (a, c, d) },
         { source := (aSrc, bSrc, cSrc), target := (a, b, c) }] := by
  show (if quadSkipped env (boundingExtent4 aSrc bSrc cSrc dSrc) then st
    else leafA env st (quadWrapsX env (boundingExtent4 aSrc bSrc cSrc dSrc))
      a b c d aSrc bSrc cSrc dSrc).triangles = _
  rw [show quadSkipped env (boundingExtent4 aSrc bSrc cSrc dSrc) = false by
    simp [quadSkipped, h]]
  simp only [if_neg Bool.false_ne_true, leafA, h, addTriangleA]
  split <;> simp

/-- C6 amended witness: the unconditional leaf emission at a concrete
degenerate input. -/
theorem leaf_quad_emits_unconditionally_witness :
    (addQuadIfValidA envC6 0 initStateA (0, 0) (1, 0) (1, 1) (0, 1)
        (5, 5) (5, 5) (5, 5) (5, 5)).triangles =
      initStateA.triangles ++
        [{ source := ((5, 5), (5, 5), (5, 5)), target := ((0, 0), (1, 1), (0, 1)) },
         { source := ((5, 5), (5, 5), (5, 5)), target := ((0, 0), (1, 0), (1, 1)) }] :=
  leaf_quad_emits_unconditionally envC6 initStateA
    (0, 0) (1, 0) (1, 1) (0, 1) (5, 5) (5, 5) (5, 5) (5, 5) rfl

/-- C10: a triangulation with no triangles yields the `createEmpty` sentinel,
whose `minX` (positive infinity) exceeds its `maxX` (negative infinity), and
the sentinel fails every intersection test with a finite extent (which is how
`ol.reproj.createTile` ends up producing an empty tile). -/
theorem empty_triangulation_source_extent (env : TriEnvA) (st : TriStateA)
    (h1 : st.triangles = []) (h2 : st.trianglesSourceExtent = none) :
    (calculateSourceExtentA env st).1 = createEmptyE ∧
    QInf.ltB createEmptyE.maxX createEmptyE.minX = true ∧
    ∀ e : Extent, intersectsE e (calculateSourceExtentA env st).1 = false := by
  have hres : (calculateSourceExtentA env st).1 = createEmptyE := by
    unfold calculateSourceExtentA
    rw [h2]
    simp only [h1]
    by_cases hw : st.wrapsXInSource
    · simp [hw, wrapAccumulatedExtent, shiftExtentBack, createEmptyE,
        List.foldl, QInf.ltB, QInf.leB, QInf.subQ]
    · simp [hw, List.foldl]
  refine ⟨hres, rfl, fun e => ?_⟩
  rw [hres]
  simp [intersectsE, createEmptyE, QInf.leB]

/-- A concrete environment whose inverse transform is the identity except at
the five points probed by one refinement step of the quad
`(0,0) (4,0) (4,4) (0,4)`. -/
def envC1 : TriEnvA :=
  { sourceProj := { extent := ⟨-180, -90, 180, 90⟩,
                    canWrapX := false, isGlobal := false }
    transformInv := fun p =>
      if p = (0, 0) then (0, 0)
      else if p = (4, 0) then (0, 10)
      else if p = (4, 4) then (2, 0)
      else if p = (0, 4) then (0, -10)
      else if p = (2, 2) then (1, 0)
      else p
    transformFwd := fun p => p
    maxSourceExtent := none
    errorThresholdSquared := 1 / 16
    maxTriangleWidth := 1 / 4 }

/-- C1 counterexample: at depth 1 with forced subdivision inactive, the code
emits the quad as a two-triangle leaf (no subdivision), although the spec's
four-corner-average estimate has squared error 1/4, strictly above the squared
threshold 1/16 — so the claimed subdivision criterion (average of the four
source corners) disagrees with the code, which averages only the two diagonal
corners `aSrc` and `cSrc`. -/
theorem four_corner_estimate_refuted :
    (addQuadIfValidA envC1 1 initStateA (0, 0) (4, 0) (4, 4) (0, 4)
        (0, 0) (0, 10) (2, 0) (0, -10)).triangles.length = 2 ∧
    specCenterSrcErrorSquared envC1 false (0, 0) (0, 10) (2, 0) (0, -10)
        (envC1.transformInv (midpoint (0, 0) (4, 4))) >
      envC1.errorThresholdSquared ∧
    forcedSubdivision envC1
        (quadWrapsX envC1 (boundingExtent4 (0, 0) (0, 10) (2, 0) (0, -10)))
        (boundingExtent4 (0, 0) (0, 10) (2, 0) (0, -10)) = false := by
  with_unfolding_all decide

/-- C1 amended: when depth is positive and forced subdivision is not active,
the code estimates the source midpoint as the average of the two diagonal
inverse-projected corners `aSrc` and `cSrc` (for a wrapping quad each corner's
x is reduced modulo the source world width before averaging, as is the x of
the inverse-projected center), and the quad is subdivided exactly when the
squared distance between this estimate and `inv(midpoint(a, c))` strictly
exceeds the squared error threshold. -/
theorem subdivision_decision_uses_diagonal (env : TriEnvA)
    (a b c d aSrc bSrc cSrc dSrc : Coord) (m : ℕ) (st : TriStateA)
    (hforced : forcedSubdivision env
      (quadWrapsX env (boundingExtent4 aSrc bSrc cSrc dSrc))
      (boundingExtent4 aSrc bSrc cSrc dSrc) = false) :
    (needsSubdivisionA env a c aSrc cSrc (boundingExtent4 aSrc bSrc cSrc dSrc)
        = true ↔
      env.errorThresholdSquared <
        (let W := env.sourceWorldWidth
         let centerSrc := env.transformInv (midpoint a c)
         let dx : ℚ :=
           if quadWrapsX env (boundingExtent4 aSrc bSrc cSrc dSrc) then
             (moduloQ aSrc.1 W + moduloQ cSrc.1 W) / 2 - moduloQ centerSrc.1 W
           else (aSrc.1 + cSrc.1) / 2 - centerSrc.1
         let dy : ℚ := (aSrc.2 + cSrc.2) / 2 - centerSrc.2
         dx * dx + dy * dy)) ∧
    (quadSkipped env (boundingExtent4 aSrc bSrc cSrc dSrc) = false →
      needsSubdivisionA env a c aSrc cSrc (boundingExtent4 aSrc bSrc cSrc dSrc)
          = false →
      addQuadIfValidA env (m + 1) st a b c d aSrc bSrc cSrc dSrc =
        leafA env st (quadWrapsX env (boundingExtent4 aSrc bSrc cSrc dSrc))
          a b c d aSrc bSrc cSrc dSrc) ∧
    (quadSkipped env (boundingExtent4 aSrc bSrc cSrc dSrc) = false →
      needsSubdivisionA env a c aSrc cSrc (boundingExtent4 aSrc bSrc cSrc dSrc)
          = true →
      addQuadIfValidA env (m + 1) st a b c d aSrc bSrc cSrc dSrc =
        addQuadIfValidA env m
          (addQuadIfValidA env m
            (addQuadIfValidA env m
              (addQuadIfValidA env m st
                a (midpoint a b) (midpoint a c) (midpoint d a)
                aSrc (env.transformInv (midpoint a b))
                (env.transformInv (midpoint a c))
                (env.transformInv (midpoint d a)))
              (midpoint a b) b (midpoint b c) (midpoint a c)
              (env.transformInv (midpoint a b)) bSrc
              (env.transformInv (midpoint b c))
              (env.transformInv (midpoint a c)))
            (midpoint a c) (midpoint b c) c (midpoint c d)
            (env.transformInv (midpoint a c)) (env.transformInv (midpoint b c))
            cSrc (env.transformInv (midpoint c d)))
          (midpoint d a) (midpoint a c) (midpoint c d) d
          (env.transformInv (midpoint d a)) (env.transformInv (midpoint a c))
          (env.transformInv (midpoint c d)) dSrc) := by
  refine ⟨?_, ?_, ?_⟩
  · simp only [needsSubdivisionA, hforced, Bool.false_eq_true, if_false,
      decide_eq_true_eq, centerSrcErrorSquared, gt_iff_lt]
  · intro hskip hsub
    simp only [addQuadIfValidA, hskip, hsub, Bool.false_eq_true, if_false]
  · intro hskip hsub
    simp only [addQuadIfValidA, hskip, hsub, if_true, Bool.false_eq_true,
      if_false]

/-- C1 amended witness: the diagonal-estimate decision at a concrete quad. -/
theorem subdivision_decision_uses_diagonal_witness :
    (needsSubdivisionA envC1 (0, 0) (4, 4) (0, 0) (2, 0)
        (boundingExtent4 (0, 0) (0, 10) (2, 0) (0, -10)) = true ↔
      envC1.errorThresholdSquared <
        (let W := envC1.sourceWorldWidth
         let centerSrc := envC1.transformInv (midpoint (0, 0) (4, 4))
         let dx : ℚ :=
           if quadWrapsX envC1 (boundingExtent4 (0, 0) (0, 10) (2, 0) (0, -10))
           then
             (moduloQ (0 : ℚ) W + moduloQ (2 : ℚ) W) / 2 - moduloQ centerSrc.1 W
           else ((0 : ℚ) + (2 : ℚ)) / 2 - centerSrc.1
         let dy : ℚ := ((0 : ℚ) + (0 : ℚ)) / 2 - centerSrc.2
         dx * dx + dy * dy)) ∧
    (quadSkipped envC1 (boundingExtent4 (0, 0) (0, 10) (2, 0) (0, -10)) = false →
      needsSubdivisionA envC1 (0, 0) (4, 4) (0, 0) (2, 0)
          (boundingExtent4 (0, 0) (0, 10) (2, 0) (0, -10)) = false →
      addQuadIfValidA envC1 1 initStateA (0, 0) (4, 0) (4, 4) (0, 4)
          (0, 0) (0, 10) (2, 0) (0, -10) =
        leafA envC1 initStateA
          (quadWrapsX envC1 (boundingExtent4 (0, 0) (0, 10) (2, 0) (0, -10)))
          (0, 0) (4, 0) (4, 4) (0, 4) (0, 0) (0, 10) (2, 0) (0, -10)) ∧
    (quadSkipped envC1 (boundingExtent4 (0, 0) (0, 10) (2, 0) (0, -10)) = false →
      needsSubdivisionA envC1 (0, 0) (4, 4) (0, 0) (2, 0)
          (boundingExtent4 (0, 0) (0, 10) (2, 0) (0, -10)) = true →
      addQuadIfValidA envC1 1 initStateA (0, 0) (4, 0) (4, 4) (0, 4)
          (0, 0) (0, 10) (2, 0) (0, -10) =
        addQuadIfValidA envC1 0
          (addQuadIfValidA envC1 0
            (addQuadIfValidA envC1 0
              (addQuadIfValidA envC1 0 initStateA
                (0, 0) (midpoint (0, 0) (4, 0)) (midpoint (0, 0) (4, 4))
                (midpoint (0, 4) (0, 0))
                (0, 0) (envC1.transformInv (midpoint (0, 0) (4, 0)))
                (envC1.transformInv (midpoint (0, 0) (4, 4)))
                (envC1.transformInv (midpoint (0, 4) (0, 0))))
              (midpoint (0, 0) (4, 0)) (4, 0) (midpoint (4, 0) (4, 4))
              (midpoint (0, 0) (4, 4))
              (envC1.transformInv (midpoint (0, 0) (4, 0))) (0, 10)
              (envC1.transformInv (midpoint (4, 0) (4, 4)))
              (envC1.transformInv (midpoint (0, 0) (4, 4))))
            (midpoint (0, 0) (4, 4)) (midpoint (4, 0) (4, 4)) (4, 4)
            (midpoint (4, 4) (0, 4))
            (envC1.transformInv (midpoint (0, 0) (4, 4)))
            (envC1.transformInv (midpoint (4, 0) (4, 4)))
            (2, 0) (envC1.transformInv (midpoint (4, 4) (0, 4))))
          (midpoint (0, 4) (0, 0)) (midpoint (0, 0) (4, 4))
          (midpoint (4, 4) (0, 4)) (0, 4)
          (envC1.transformInv (midpoint (0, 4) (0, 0)))
          (envC1.transformInv (midpoint (0, 0) (4, 4)))
          (envC1.transformInv (midpoint (4, 4) (0, 4))) (0, -10)) :=
  subdivision_decision_uses_diagonal envC1 (0, 0) (4, 0) (4, 4) (0, 4)
    (0, 0) (0, 10) (2, 0) (0, -10) 0 initStateA
    (by with_unfolding_all decide)

theorem QInf.leB_refl (x : QInf) : QInf.leB x x = true := by
  cases x <;> simp [QInf.leB]

theorem QInf.leB_of_not_leB {x y : QInf} (h : QInf.leB x y = false) :
    QInf.leB y x = true := by
  cases x <;> cases y <;> simp_all [QInf.leB] <;> linarith

theorem QInf.leB_trans {x y z : QInf} (h1 : QInf.leB x y = true)
    (h2 : QInf.leB y z = true) : QInf.leB x z = true := by
  cases x <;> cases y <;> cases z <;> simp_all [QInf.leB] <;> linarith

theorem QInf.leB_minI_left (x y : QInf) : QInf.leB (QInf.minI x y) x = true := by
  unfold QInf.minI
  by_cases h : QInf.leB x y = true
  · simp [h, QInf.leB_refl]
  · simp [h, QInf.leB_of_not_leB (Bool.not_eq_true _ ▸ h)]

theorem QInf.leB_minI_right (x y : QInf) : QInf.leB (QInf.minI x y) y = true := by
  unfold QInf.minI
  by_cases h : QInf.leB x y = true
  · simp [h]
  · simp [h, QInf.leB_refl]

theorem QInf.leB_maxI_left (x y : QInf) : QInf.leB x (QInf.maxI x y) = true := by
  unfold QInf.maxI
  by_cases h : QInf.leB x y = true
  · simp [h]
  · simp [h, QInf.leB_refl]

theorem QInf.leB_maxI_right (x y : QInf) : QInf.leB y (QInf.maxI x y) = true := by
  unfold QInf.maxI
  by_cases h : QInf.leB x y = true
  · simp [h, QInf.leB_refl]
  · simp [h, QInf.leB_of_not_leB (Bool.not_eq_true _ ▸ h)]

/-- Extending an extent preserves any previously contained coordinate. -/
theorem containsE_extend_mono {e : EExtent} {p : Coord} (c : Coord)
    (h : containsCoordinateE e p = true) :
    containsCoordinateE (extendCoordinateE e c) p = true := by
  unfold containsCoordinateE extendCoordinateE at *
  simp only [Bool.and_eq_true] at h ⊢
  exact ⟨⟨⟨QInf.leB_trans (QInf.leB_minI_left _ _) h.1.1.1,
    QInf.leB_trans h.1.1.2 (QInf.leB_maxI_left _ _)⟩,
    QInf.leB_trans (QInf.leB_minI_left _ _) h.1.2⟩,
    QInf.leB_trans h.2 (QInf.leB_maxI_left _ _)⟩

/-- Extending an extent by a coordinate makes it contain that coordinate. -/
theorem containsE_extend_self (e : EExtent) (c : Coord) :
    containsCoordinateE (extendCoordinateE e c) c = true := by
  unfold containsCoordinateE extendCoordinateE
  simp only [Bool.and_eq_true]
  exact ⟨⟨⟨QInf.leB_minI_right _ _, QInf.leB_maxI_right _ _⟩,
    QInf.leB_minI_right _ _⟩, QInf.leB_maxI_right _ _⟩

theorem containsE_extendTriangleModulo_mono {e : EExtent} {p : Coord}
    (W : ℚ) (t : TriangleA) (h : containsCoordinateE e p = true) :
    containsCoordinateE (extendTriangleModulo W e t) p = true := by
  unfold extendTriangleModulo
  exact containsE_extend_mono _ (containsE_extend_mono _ (containsE_extend_mono _ h))

theorem containsE_extendTrianglePlain_mono {e : EExtent} {p : Coord}
    (t : TriangleA) (h : containsCoordinateE e p = true) :
    containsCoordinateE (extendTrianglePlain e t) p = true := by
  unfold extendTrianglePlain
  exact containsE_extend_mono _ (containsE_extend_mono _ (containsE_extend_mono _ h))

theorem foldl_extendTriangleModulo_mono (W : ℚ) (l : List TriangleA)
    {e : EExtent} {p : Coord} (h : containsCoordinateE e p = true) :
    containsCoordinateE (l.foldl (extendTriangleModulo W) e) p = true := by
  induction l generalizing e with
  | nil => exact h
  | cons hd tl ih => exact ih (containsE_extendTriangleModulo_mono W hd h)

theorem foldl_extendTrianglePlain_mono (l : List TriangleA)
    {e : EExtent} {p : Coord} (h : containsCoordinateE e p = true) :
    containsCoordinateE (l.foldl extendTrianglePlain e) p = true := by
  induction l generalizing e with
  | nil => exact h
  | cons hd tl ih => exact ih (containsE_extendTrianglePlain_mono hd h)

theorem foldl_extendTriangleModulo_contains (W : ℚ) (l : List TriangleA)
    (e : EExtent) (t : TriangleA) (ht : t ∈ l) :
    containsCoordinateE (l.foldl (extendTriangleModulo W) e)
      (moduloQ t.source.1.1 W, t.source.1.2) = true ∧
    containsCoordinateE (l.foldl (extendTriangleModulo W) e)
      (moduloQ t.source.2.1.1 W, t.source.2.1.2) = true ∧
    containsCoordinateE (l.foldl (extendTriangleModulo W) e)
      (moduloQ t.source.2.2.1 W, t.source.2.2.2) = true := by
  induction l generalizing e with
  | nil => cases ht
  | cons hd tl ih =>
    rcases List.mem_cons.mp ht with h | h
    · subst h
      refine ⟨?_, ?_, ?_⟩ <;>
        refine foldl_extendTriangleModulo_mono W tl ?_ <;>
        unfold extendTriangleModulo
      · exact containsE_extend_mono _ (containsE_extend_mono _
          (containsE_extend_self _ _))
      · exact containsE_extend_mono _ (containsE_extend_self _ _)
      · exact containsE_extend_self _ _
    · exact ih _ h

theorem foldl_extendTrianglePlain_contains (l : List TriangleA)
    (e : EExtent) (t : TriangleA) (ht : t ∈ l) :
    containsCoordinateE (l.foldl extendTrianglePlain e) t.source.1 = true ∧
    containsCoordinateE (l.foldl extendTrianglePlain e) t.source.2.1 = true ∧
    containsCoordinateE (l.foldl extendTrianglePlain e) t.source.2.2 = true := by
  induction l generalizing e with
  | nil => cases ht
  | cons hd tl ih =>
    rcases List.mem_cons.mp ht with h | h
    · subst h
      refine ⟨?_, ?_, ?_⟩ <;>
        refine foldl_extendTrianglePlain_mono tl ?_ <;>
        unfold extendTrianglePlain
      · exact containsE_extend_mono _ (containsE_extend_mono _
          (containsE_extend_self _ _))
      · exact containsE_extend_mono _ (containsE_extend_self _ _)
      · exact containsE_extend_self _ _
    · exact ih _ h

/-- C9 amended: the source-extent calculation is idempotent (the second call
returns the cached extent); when the mesh does not wrap, the returned extent
contains every triangle's source vertex; when it wraps, the extent accumulated
from the modulo-reduced vertices contains every modulo-reduced vertex, and the
returned extent is that accumulation with each x bound shifted down by one
world width when it exceeds the source domain's `maxX` (after which containment
of the modulo-reduced vertices can fail, see the counterexample). -/
theorem source_extent_amended (env : TriEnvA) (st : TriStateA)
    (hcache : st.trianglesSourceExtent = none) :
    (calculateSourceExtentA env (calculateSourceExtentA env st).2 =
      calculateSourceExtentA env st) ∧
    (st.wrapsXInSource = false →
      ∀ t ∈ st.triangles,
        containsCoordinateE (calculateSourceExtentA env st).1 t.source.1 = true ∧
        containsCoordinateE (calculateSourceExtentA env st).1 t.source.2.1 = true ∧
        containsCoordinateE (calculateSourceExtentA env st).1 t.source.2.2 = true) ∧
    (st.wrapsXInSource = true →
      ((calculateSourceExtentA env st).1 =
        shiftExtentBack env (wrapAccumulatedExtent env st.triangles)) ∧
      ∀ t ∈ st.triangles,
        containsCoordinateE (wrapAccumulatedExtent env st.triangles)
          (moduloQ t.source.1.1 env.sourceWorldWidth, t.source.1.2) = true ∧
        containsCoordinateE (wrapAccumulatedExtent env st.triangles)
          (moduloQ t.source.2.1.1 env.sourceWorldWidth, t.source.2.1.2) = true ∧
        containsCoordinateE (wrapAccumulatedExtent env st.triangles)
          (moduloQ t.source.2.2.1 env.sourceWorldWidth, t.source.2.2.2) = true) := by
  refine ⟨?_, ?_, ?_⟩
  · unfold calculateSourceExtentA
    rw [hcache]
  · intro hw t ht
    unfold calculateSourceExtentA
    rw [hcache]
    simp only [hw, Bool.false_eq_true, if_false]
    exact foldl_extendTrianglePlain_contains st.triangles createEmptyE t ht
  · intro hw
    constructor
    · unfold calculateSourceExtentA
      rw [hcache]
      simp [hw]
    · intro t ht
      exact foldl_extendTriangleModulo_contains env.sourceWorldWidth
        st.triangles createEmptyE t ht

/-- A concrete wrapping scenario: the inverse transform sends the corners of
the target extent `[0, 0, 1, 1]` across the dateline of a `[-180, 180]` world. -/
def envC9 : TriEnvA :=
  { sourceProj := { extent := ⟨-180, -90, 180, 90⟩,
                    canWrapX := true, isGlobal := false }
    transformInv := fun p =>
      if p = (0, 1) then (170, 0)
      else if p = (1, 1) then (-170, 0)
      else if p = (1, 0) then (-170, 10)
      else if p = (0, 0) then (170, 10)
      else if p = (1 / 2, 1 / 2) then (180, 5)
      else p
    transformFwd := fun p => p
    maxSourceExtent := none
    errorThresholdSquared := 1
    maxTriangleWidth := 1 / 4 }

/-- C9 counterexample: for a wrapping mesh actually produced by the
triangulator, the returned source extent has `minX = 170 > maxX = -170`
(the conditional shift moved only the upper x bound), so it fails to contain
even the modulo-reduced copy of the source vertex `(170, 0)` of its own first
triangle. -/
theorem wrap_source_extent_not_containing :
    (calculateSourceExtentA envC9 (buildTriangulationA envC9 ⟨0, 0, 1, 1⟩ 4)).1 =
      ⟨.val 170, .val 0, .val (-170), .val 10⟩ ∧
    (buildTriangulationA envC9 ⟨0, 0, 1, 1⟩ 4).wrapsXInSource = true ∧
    ((buildTriangulationA envC9 ⟨0, 0, 1, 1⟩ 4).triangles.map
        TriangleA.source) =
      [((170, 0), (-170, 10), (170, 10)), ((170, 0), (-170, 0), (-170, 10))] ∧
    QInf.ltB
      (calculateSourceExtentA envC9 (buildTriangulationA envC9 ⟨0, 0, 1, 1⟩ 4)).1.maxX
      (calculateSourceExtentA envC9 (buildTriangulationA envC9 ⟨0, 0, 1, 1⟩ 4)).1.minX
      = true ∧
    containsCoordinateE
      (calculateSourceExtentA envC9 (buildTriangulationA envC9 ⟨0, 0, 1, 1⟩ 4)).1
      (moduloQ 170 envC9.sourceWorldWidth, 0) = false := by
  with_unfolding_all decide

/-- C9 amended witness: the source-extent properties at a concrete
non-wrapping one-triangle state. -/
theorem source_extent_amended_witness :
    (calculateSourceExtentA envC6
        (calculateSourceExtentA envC6
          ⟨[⟨((1, 2), (3, 4), (5, 6)), ((0, 0), (1, 0), (0, 1))⟩], false, none⟩).2 =
      calculateSourceExtentA envC6
        ⟨[⟨((1, 2), (3, 4), (5, 6)), ((0, 0), (1, 0), (0, 1))⟩], false, none⟩) ∧
    containsCoordinateE
      (calculateSourceExtentA envC6
        ⟨[⟨((1, 2), (3, 4), (5, 6)), ((0, 0), (1, 0), (0, 1))⟩], false, none⟩).1
      (1, 2) = true := by
  have h := source_extent_amended envC6
    ⟨[⟨((1, 2), (3, 4), (5, 6)), ((0, 0), (1, 0), (0, 1))⟩], false, none⟩ rfl
  exact ⟨h.1, (h.2.1 rfl _ (List.mem_singleton.mpr rfl)).1⟩

/-- C10 witness: the empty-triangulation behaviour at a concrete state. -/
theorem empty_triangulation_source_extent_witness :
    (calculateSourceExtentA envC6 initStateA).1 = createEmptyE ∧
    QInf.ltB createEmptyE.maxX createEmptyE.minX = true ∧
    intersectsE ⟨0, 0, 256, 256⟩ (calculateSourceExtentA envC6 initStateA).1
      = false := by
  have h := empty_triangulation_source_extent envC6 initStateA rfl rfl
  exact ⟨h.1, h.2.1, h.2.2 _⟩

/-- The index involution realised by `swapRows`. -/
def swapIdx (r1 r2 r : ℕ) : ℕ :=
  if r = r1 then r2 else if r = r2 then r1 else r

/-- `swapRows` reads each row through the index involution. -/
theorem swapRows_eq (A : ℕ → ℕ → ℚ) (r1 r2 r : ℕ) :
    swapRows A r1 r2 r = A (swapIdx r1 r2 r) := by
  unfold swapRows swapIdx
  split_ifs <;> rfl

/-- The swap index map is an involution. -/
theorem swapIdx_invol (r1 r2 r : ℕ) : swapIdx r1 r2 (swapIdx r1 r2 r) = r := by
  unfold swapIdx
  split_ifs <;> omega

/-- The swap index map preserves the row range. -/
theorem swapIdx_lt (n r1 r2 r : ℕ) (h1 : r1 < n) (h2 : r2 < n) (hr : r < n) :
    swapIdx r1 r2 r < n := by
  unfold swapIdx
  split_ifs <;> omega

/-- Rows other than the two swapped ones are untouched by `swapRows`. -/
theorem swapRows_other (A : ℕ → ℕ → ℚ) (r1 r2 r : ℕ) (h1 : r ≠ r1)
    (h2 : r ≠ r2) : swapRows A r1 r2 r = A r := by
  unfold swapRows
  rw [if_neg h1, if_neg h2]

/-- `rowSum` only depends on the row read off the matrix. -/
theorem rowSum_congr {A B : ℕ → ℕ → ℚ} {r r' : ℕ} (n : ℕ) (x : ℕ → ℚ)
    (h : A r = B r') : rowSum A n r x = rowSum B n r' x := by
  unfold rowSum
  rw [h]

/-- Swapping two of the first `n` rows permutes the equations, leaving the
solution set of the augmented system unchanged. -/
theorem solves_swapRows_iff (A : ℕ → ℕ → ℚ) (n r1 r2 : ℕ)
    (h1 : r1 < n) (h2 : r2 < n) (x : ℕ → ℚ) :
    solves (swapRows A r1 r2) n x ↔ solves A n x := by
  constructor
  · intro hs r hr
    have h' := hs (swapIdx r1 r2 r) (swapIdx_lt n r1 r2 r h1 h2 hr)
    have he : swapRows A r1 r2 (swapIdx r1 r2 r) = A r := by
      rw [swapRows_eq, swapIdx_invol]
    rw [rowSum_congr n x he, congrFun he n] at h'
    exact h'
  · intro hs r hr
    have he : swapRows A r1 r2 r = A (swapIdx r1 r2 r) := swapRows_eq A r1 r2 r
    rw [rowSum_congr n x he, congrFun he n]
    exact hs (swapIdx r1 r2 r) (swapIdx_lt n r1 r2 r h1 h2 hr)

/-- With a nonzero pivot whose row vanishes left of the diagonal, the
elimination step is exactly the row operation adding `-(A j i)/(A i i)` times
row `i` to every row `j` strictly between `i` and `n`, in every column `≤ n`. -/
theorem eliminate_entry (A : ℕ → ℕ → ℚ) (n i : ℕ)
    (hpiv : A i i ≠ 0) (hrow : ∀ k, k < i → A i k = 0)
    (j k : ℕ) (hij : i < j) (hjn : j < n) (hk : k ≤ n) :
    eliminate A n i j k = A j k + -(A j i) / A i i * A i k := by
  unfold eliminate
  by_cases hki : i ≤ k
  · rw [if_pos ⟨hij, hjn, hki, hk⟩]
    by_cases he : k = i
    · subst he
      rw [if_pos rfl, div_mul_cancel₀ _ hpiv]
      ring
    · rw [if_neg he]
  · rw [if_neg (fun hc => hki hc.2.2.1), hrow k (by omega), mul_zero, add_zero]

/-- Rows outside `(i, n)` are untouched by the elimination step. -/
theorem eliminate_other (A : ℕ → ℕ → ℚ) (n i j : ℕ) (h : ¬(i < j ∧ j < n)) :
    eliminate A n i j = A j := by
  funext k
  unfold eliminate
  rw [if_neg (fun hc => h ⟨hc.1, hc.2.1⟩)]

/-- The elimination step acts linearly on the first `n` entries of each
modified row. -/
theorem rowSum_eliminate (A : ℕ → ℕ → ℚ) (n i : ℕ)
    (hpiv : A i i ≠ 0) (hrow : ∀ k, k < i → A i k = 0)
    (j : ℕ) (hij : i < j) (hjn : j < n) (x : ℕ → ℚ) :
    rowSum (eliminate A n i) n j x
      = rowSum A n j x + -(A j i) / A i i * rowSum A n i x := by
  unfold rowSum
  rw [Finset.mul_sum, ← Finset.sum_add_distrib]
  refine Finset.sum_congr rfl ?_
  intro k hk
  rw [Finset.mem_range] at hk
  rw [eliminate_entry A n i hpiv hrow j k hij hjn (by omega)]
  ring

/-- The elimination step leaves the solution set of the augmented system
unchanged (the pivot being nonzero makes it invertible). -/
theorem solves_eliminate_iff (A : ℕ → ℕ → ℚ) (n i : ℕ) (hin : i < n)
    (hpiv : A i i ≠ 0) (hrow : ∀ k, k < i → A i k = 0) (x : ℕ → ℚ) :
    solves (eliminate A n i) n x ↔ solves A n x := by
  have hrowi : eliminate A n i i = A i := eliminate_other A n i i (by omega)
  constructor
  · intro hs r hr
    by_cases hir : i < r
    · have heqi := hs i hin
      rw [rowSum_congr n x hrowi, congrFun hrowi n] at heqi
      have heqr := hs r hr
      rw [rowSum_eliminate A n i hpiv hrow r hir hr x] at heqr
      rw [eliminate_entry A n i hpiv hrow r n hir hr (le_refl n), heqi] at heqr
      linarith
    · have he : eliminate A n i r = A r := eliminate_other A n i r (by omega)
      have heqr := hs r hr
      rw [rowSum_congr n x he, congrFun he n] at heqr
      exact heqr
  · intro hs r hr
    by_cases hir : i < r
    · rw [rowSum_eliminate A n i hpiv hrow r hir hr x,
        eliminate_entry A n i hpiv hrow r n hir hr (le_refl n),
        hs r hr, hs i hin]
    · have he : eliminate A n i r = A r := eliminate_other A n i r (by omega)
      rw [rowSum_congr n x he, congrFun he n]
      exact hs r hr

/-- The pivot row returned by the pivot search is never above row `i`. -/
theorem findPivot_ge (A : ℕ → ℕ → ℚ) (n i : ℕ) : i ≤ (findPivot A n i).1 := by
  obtain ⟨_, h2, _, _⟩ := findPivot_fold A i
    (List.range' (i + 1) (n - (i + 1))) (i, |A i i|) rfl
  unfold findPivot
  rcases h2 with h | h
  · rw [h]
  · obtain ⟨j, _, hje⟩ := List.mem_range'.mp h
    omega

/-- Unfolding equation of the forward loop at fuel zero. -/
theorem forwardAux_zero (n : ℕ) (A : ℕ → ℕ → ℚ) (i : ℕ) :
    forwardAux n 0 A i = some A := rfl

/-- Unfolding equation of the forward loop at positive fuel. -/
theorem forwardAux_succ (n c : ℕ) (A : ℕ → ℕ → ℚ) (i : ℕ) :
    forwardAux n (c + 1) A i =
      if (findPivot A n i).2 = 0 then none
      else forwardAux n c
        (eliminate (swapRows A i (findPivot A n i).1) n i) (i + 1) := rfl

/-- The leading `n × n` block of the augmented matrix, as a square matrix. -/
def sqMatrix (n : ℕ) (A : ℕ → ℕ → ℚ) : Matrix (Fin n) (Fin n) ℚ :=
  Matrix.of (fun r c : Fin n => A r.val c.val)

/-- One successful elimination step: the zero region grows by one column, the
previously fixed rows keep their shape, row `i` becomes a valid pivot row, the
solution set is unchanged, and the leading block stays nonsingular. -/
theorem stepOnce_props (n : ℕ) (B : ℕ → ℕ → ℚ) (i : ℕ) (hi : i < n)
    (hzb : ZeroBelow B n i) (hp : (findPivot B n i).2 ≠ 0) :
    ZeroBelow (stepOnce n B i) n (i + 1) ∧
    (∀ l, l < i → diagOK B l → diagOK (stepOnce n B i) l) ∧
    diagOK (stepOnce n B i) i ∧
    (∀ x, solves (stepOnce n B i) n x ↔ solves B n x) ∧
    (Matrix.det (sqMatrix n B) ≠ 0 →
      Matrix.det (sqMatrix n (stepOnce n B i)) ≠ 0) := by
  obtain ⟨⟨hpge, hplt⟩, hpval, _⟩ := findPivot_spec B n i hi
  have hstep : stepOnce n B i
      = eliminate (swapRows B i (findPivot B n i).1) n i := by
    unfold stepOnce
    rw [if_neg hp]
  have hA1i : swapRows B i (findPivot B n i).1 i = B (findPivot B n i).1 := by
    rw [swapRows_eq]
    unfold swapIdx
    rw [if_pos rfl]
  have hpivne : swapRows B i (findPivot B n i).1 i i ≠ 0 := by
    rw [hA1i]
    intro h0
    exact hp (hpval.trans (by rw [h0, abs_zero]))
  have hrow1 : ∀ k, k < i → swapRows B i (findPivot B n i).1 i k = 0 := by
    intro k hk
    rw [hA1i]
    exact hzb _ hpge hplt k hk
  have hzb1 : ZeroBelow (swapRows B i (findPivot B n i).1) n i := by
    intro r hr hrn k hk
    rw [swapRows_eq]
    refine hzb _ ?_ ?_ k hk
    · unfold swapIdx
      split_ifs <;> omega
    · unfold swapIdx
      split_ifs <;> omega
  refine ⟨?_, ?_, ?_, ?_, ?_⟩
  · -- the zero region grows
    intro r hr hrn k hk
    rw [hstep]
    rw [eliminate_entry _ n i hpivne hrow1 r k (by omega) hrn (by omega)]
    by_cases hki : k = i
    · subst hki
      rw [div_mul_cancel₀ _ hpivne]
      ring
    · rw [hzb1 r (by omega) hrn k (by omega), hrow1 k (by omega)]
      ring
  · -- rows below `i` keep their shape
    intro l hl hdOK
    have he : stepOnce n B i l = B l := by
      rw [hstep, eliminate_other _ n i l (by omega),
        swapRows_other B i (findPivot B n i).1 l (by omega) (by omega)]
    unfold diagOK at hdOK ⊢
    rw [he]
    exact hdOK
  · -- row `i` becomes a valid pivot row
    have he : stepOnce n B i i = B (findPivot B n i).1 := by
      rw [hstep, eliminate_other _ n i i (by omega), hA1i]
    constructor
    · rw [congrFun he i]
      intro h0
      exact hp (hpval.trans (by rw [h0, abs_zero]))
    · intro k hk
      rw [congrFun he k]
      exact hzb _ hpge hplt k hk
  · -- the solution set is unchanged
    intro x
    rw [hstep, solves_eliminate_iff _ n i hi hpivne hrow1 x,
      solves_swapRows_iff B n i (findPivot B n i).1 hi hplt x]
  · -- nonsingularity is preserved
    intro hdet
    rw [hstep]
    have hswapM : sqMatrix n (swapRows B i (findPivot B n i).1)
        = (sqMatrix n B).submatrix
            (Equiv.swap ⟨i, hi⟩ ⟨(findPivot B n i).1, hplt⟩) id := by
      ext r c
      simp only [sqMatrix, Matrix.of_apply, Matrix.submatrix_apply, id]
      rw [swapRows_eq]
      congr 1
      unfold swapIdx
      by_cases h1 : (r : ℕ) = i
      · have hri : r = ⟨i, hi⟩ := Fin.ext h1
        subst hri
        rw [if_pos rfl, Equiv.swap_apply_left]
      · rw [if_neg h1]
        by_cases h2 : (r : ℕ) = (findPivot B n i).1
        · have hrp : r = ⟨(findPivot B n i).1, hplt⟩ := Fin.ext h2
          subst hrp
          rw [if_pos rfl, Equiv.swap_apply_right]
        · rw [if_neg h2, Equiv.swap_apply_of_ne_of_ne
            (fun hc => h1 (by rw [hc])) (fun hc => h2 (by rw [hc]))]
    have hdetswap : Matrix.det (sqMatrix n (swapRows B i (findPivot B n i).1))
        ≠ 0 := by
      rw [hswapM, Matrix.det_permute]
      refine mul_ne_zero ?_ hdet
      rcases Int.units_eq_one_or
        (Equiv.Perm.sign (Equiv.swap (⟨i, hi⟩ : Fin n)
          ⟨(findPivot B n i).1, hplt⟩)) with h | h <;> rw [h] <;> norm_num
    have helim : Matrix.det
        (sqMatrix n (eliminate (swapRows B i (findPivot B n i).1) n i))
        = Matrix.det (sqMatrix n (swapRows B i (findPivot B n i).1)) := by
      refine Matrix.det_eq_of_forall_row_eq_smul_add_const
        (fun r : Fin n => if i < r.val
          then -(swapRows B i (findPivot B n i).1 r.val i)
            / swapRows B i (findPivot B n i).1 i i else 0)
        ⟨i, hi⟩ (by simp) ?_
      intro r c
      simp only [sqMatrix, Matrix.of_apply]
      by_cases hir : i < r.val
      · rw [if_pos hir,
          eliminate_entry _ n i hpivne hrow1 r.val c.val hir r.isLt (by omega)]
      · rw [if_neg hir, congrFun (eliminate_other _ n i r.val (by omega)) c.val]
        ring
    rw [helim]
    exact hdetswap

/-- Forward elimination, run with `c` columns remaining from column `i`: on
success the result is upper triangular with a nonzero diagonal in every row,
and has exactly the same solutions as the input system. -/
theorem forwardAux_some_spec (n : ℕ) :
    ∀ (c : ℕ) (A : ℕ → ℕ → ℚ) (i : ℕ), i + c = n →
      ZeroBelow A n i → (∀ l, l < i → diagOK A l) →
      ∀ U, forwardAux n c A i = some U →
        (∀ l, l < n → diagOK U l) ∧ (∀ x, solves U n x ↔ solves A n x) := by
  intro c
  induction c with
  | zero =>
    intro A i hin _ hdiag U h
    rw [forwardAux_zero] at h
    cases h
    exact ⟨fun l hl => hdiag l (by omega), fun x => Iff.rfl⟩
  | succ c ih =>
    intro A i hin hzb hdiag U h
    rw [forwardAux_succ] at h
    by_cases hp : (findPivot A n i).2 = 0
    · rw [if_pos hp] at h
      cases h
    · rw [if_neg hp] at h
      have hi : i < n := by omega
      have hstep : eliminate (swapRows A i (findPivot A n i).1) n i
          = stepOnce n A i := by
        unfold stepOnce
        rw [if_neg hp]
      rw [hstep] at h
      obtain ⟨hzb', hdiagpres, hdiagi, hsolves, _⟩ :=
        stepOnce_props n A i hi hzb hp
      have hdiag' : ∀ l, l < i + 1 → diagOK (stepOnce n A i) l := by
        intro l hl
        rcases Nat.lt_or_ge l i with h' | h'
        · exact hdiagpres l h' (hdiag l h')
        · have hli : l = i := by omega
          subst hli
          exact hdiagi
      obtain ⟨hU, hiff⟩ := ih (stepOnce n A i) (i + 1) (by omega) hzb' hdiag' U h
      exact ⟨hU, fun x => (hiff x).trans (hsolves x)⟩

/-- Back substitution produces one value per remaining row. -/
theorem backSubstAux_length (U : ℕ → ℕ → ℚ) (n : ℕ) :
    ∀ c, (backSubstAux U n c).length = c := by
  intro c
  induction c with
  | zero => rfl
  | succ c ih => simp [backSubstAux, ih]

/-- Unfolding equation of back substitution at positive fuel. -/
theorem backSubstAux_succ (U : ℕ → ℕ → ℚ) (n c : ℕ) :
    backSubstAux U n (c + 1) =
      (U (n - (c + 1)) n -
         ∑ j ∈ Finset.range c, U (n - (c + 1)) (n - (c + 1) + 1 + j) *
           (backSubstAux U n c).getD j 0) / U (n - (c + 1)) (n - (c + 1)) ::
        backSubstAux U n c := rfl

/-- Index zero of a list read with default agrees with `headD`. -/
theorem getD_zero_headD (l : List ℚ) : l.getD 0 0 = l.headD 0 := by
  cases l <;> rfl

/-- Entries of the back-substitution list at different fuels agree: entry `j`
at fuel `c` is the head at fuel `c - j`. -/
theorem backSubstAux_getD (U : ℕ → ℕ → ℚ) (n : ℕ) :
    ∀ c j, j < c →
      (backSubstAux U n c).getD j 0 = (backSubstAux U n (c - j)).headD 0 := by
  intro c
  induction c with
  | zero => intro j hj; omega
  | succ c ih =>
    intro j hj
    cases j with
    | zero => exact getD_zero_headD _
    | succ j' =>
      rw [backSubstAux_succ, List.getD_cons_succ, ih j' (by omega),
        Nat.succ_sub_succ]

/-- The defining equation of back substitution: each row `l` of the
upper-triangular system is satisfied by the produced vector, provided the
diagonal entry of row `l` is nonzero. -/
theorem backSubst_eq (U : ℕ → ℕ → ℚ) (n l : ℕ) (hl : l < n)
    (hdiag : U l l ≠ 0) :
    U l l * ((backSubstAux U n n).getD l 0) +
      ∑ j ∈ Finset.range (n - l - 1),
        U l (l + 1 + j) * (backSubstAux U n n).getD (l + 1 + j) 0
      = U l n := by
  have hc : n - l = (n - l - 1) + 1 := by omega
  have hl' : n - ((n - l - 1) + 1) = l := by omega
  have hinner : ∀ j ∈ Finset.range (n - l - 1),
      (backSubstAux U n (n - l - 1)).getD j 0
        = (backSubstAux U n n).getD (l + 1 + j) 0 := by
    intro j hj
    rw [Finset.mem_range] at hj
    rw [backSubstAux_getD U n (n - l - 1) j hj,
      backSubstAux_getD U n n (l + 1 + j) (by omega)]
    have he : n - l - 1 - j = n - (l + 1 + j) := by omega
    rw [he]
  have hx : (backSubstAux U n n).getD l 0 =
      (U l n - ∑ j ∈ Finset.range (n - l - 1), U l (l + 1 + j) *
        (backSubstAux U n n).getD (l + 1 + j) 0) / U l l := by
    rw [backSubstAux_getD U n n l hl, hc, backSubstAux_succ]
    simp only [List.headD_cons]
    rw [hl']
    congr 1
    congr 1
    exact Finset.sum_congr rfl (fun j hj => by rw [hinner j hj])
  rw [hx, mul_comm, div_mul_cancel₀ _ hdiag]
  ring

/-- An upper-triangular system with an everywhere nonzero diagonal is solved
exactly by back substitution. -/
theorem backSubst_solves (U : ℕ → ℕ → ℚ) (n : ℕ)
    (hdiag : ∀ l, l < n → diagOK U l) :
    solves U n (fun k => (backSubstAux U n n).getD k 0) := by
  intro r hr
  show (∑ k ∈ Finset.range n, U r k * (backSubstAux U n n).getD k 0) = U r n
  have hzero : ∑ k ∈ Finset.Ico 0 r,
      U r k * (backSubstAux U n n).getD k 0 = 0 := by
    refine Finset.sum_eq_zero ?_
    intro k hk
    rw [Finset.mem_Ico] at hk
    rw [(hdiag r hr).2 k hk.2, zero_mul]
  rw [Finset.range_eq_Ico,
    ← Finset.sum_Ico_consecutive _ (Nat.zero_le r) (le_of_lt hr),
    Finset.sum_eq_sum_Ico_succ_bot hr, hzero, zero_add,
    Finset.sum_Ico_eq_sum_range]
  have hnn : n - (r + 1) = n - r - 1 := by omega
  rw [hnn]
  exact backSubst_eq U n r hr (hdiag r hr).1

/-- On success, the solver returns one value per equation and those values
exactly satisfy the original augmented system. -/
theorem solveLinearSystem_some_solves (n : ℕ) (A : ℕ → ℕ → ℚ) (xs : List ℚ)
    (h : solveLinearSystem n A = some xs) :
    xs.length = n ∧ solves A n (fun k => xs.getD k 0) := by
  unfold solveLinearSystem at h
  cases hU : forwardAux n n A 0 with
  | none =>
    rw [hU] at h
    cases h
  | some U =>
    rw [hU] at h
    simp only [Option.map_some'] at h
    cases h
    obtain ⟨hdiag, hiff⟩ := forwardAux_some_spec n n A 0 (by omega)
      (fun r _ _ k hk => absurd hk (Nat.not_lt_zero k))
      (fun l hl => absurd hl (Nat.not_lt_zero l)) U hU
    exact ⟨backSubstAux_length U n n, (hiff _).mp (backSubst_solves U n hdiag)⟩

/-- Unfolding equation of the step-indexed matrix sequence. -/
theorem matrixAtStep_succ (n : ℕ) (A : ℕ → ℕ → ℚ) (i : ℕ) :
    matrixAtStep n A (i + 1) = stepOnce n (matrixAtStep n A i) i := rfl

/-- The forward loop fails exactly when some column in its range has a zero
pivot maximum on the matrix as transformed so far, all earlier columns in the
range having nonzero pivot maxima. -/
theorem forwardAux_none_iff (n : ℕ) (A : ℕ → ℕ → ℚ) :
    ∀ (c i : ℕ), forwardAux n c (matrixAtStep n A i) i = none ↔
      ∃ j, i ≤ j ∧ j < i + c ∧
        (findPivot (matrixAtStep n A j) n j).2 = 0 ∧
        ∀ m, i ≤ m → m < j → (findPivot (matrixAtStep n A m) n m).2 ≠ 0 := by
  intro c
  induction c with
  | zero =>
    intro i
    rw [forwardAux_zero]
    constructor
    · intro h
      exact Option.noConfusion h
    · rintro ⟨j, hj1, hj2, _⟩
      omega
  | succ c ih =>
    intro i
    rw [forwardAux_succ]
    by_cases hp : (findPivot (matrixAtStep n A i) n i).2 = 0
    · rw [if_pos hp]
      constructor
      · intro _
        exact ⟨i, le_refl i, by omega, hp,
          fun m hm1 hm2 => absurd hm2 (by omega)⟩
      · intro _
        rfl
    · rw [if_neg hp]
      have hstep : eliminate (swapRows (matrixAtStep n A i) i
          (findPivot (matrixAtStep n A i) n i).1) n i
            = matrixAtStep n A (i + 1) := by
        rw [matrixAtStep_succ]
        unfold stepOnce
        rw [if_neg hp]
      rw [hstep, ih (i + 1)]
      constructor
      · rintro ⟨j, hj1, hj2, hj3, hj4⟩
        refine ⟨j, by omega, by omega, hj3, ?_⟩
        intro m hm1 hm2
        rcases Nat.eq_or_lt_of_le hm1 with he | hlt
        · rw [← he]
          exact hp
        · exact hj4 m hlt hm2
      · rintro ⟨j, hj1, hj2, hj3, hj4⟩
        have hji : j ≠ i := fun he => hp (he ▸ hj3)
        exact ⟨j, by omega, by omega, hj3,
          fun m hm1 hm2 => hj4 m (by omega) hm2⟩

/-- When the solver fails there is a first failing column: its pivot maximum
is zero and all earlier columns had nonzero pivot maxima. -/
theorem solveLinearSystem_none_first (n : ℕ) (A : ℕ → ℕ → ℚ)
    (hs : solveLinearSystem n A = none) :
    ∃ j, j < n ∧ (findPivot (matrixAtStep n A j) n j).2 = 0 ∧
      ∀ m, m < j → (findPivot (matrixAtStep n A m) n m).2 ≠ 0 := by
  unfold solveLinearSystem at hs
  rw [Option.map_eq_none'] at hs
  have hiff := forwardAux_none_iff n A n 0
  rw [show matrixAtStep n A 0 = A from rfl] at hiff
  obtain ⟨j, _, hj2, hj3, hj4⟩ := hiff.mp hs
  exact ⟨j, by omega, hj3, fun m hm => hj4 m (Nat.zero_le m) hm⟩

/-- The solver returns `none` exactly when some elimination column's pivot
maximum, on the matrix as transformed so far, is exactly zero. -/
theorem solveLinearSystem_none_iff (n : ℕ) (A : ℕ → ℕ → ℚ) :
    solveLinearSystem n A = none ↔
      ∃ i, i < n ∧ (findPivot (matrixAtStep n A i) n i).2 = 0 := by
  constructor
  · intro hs
    obtain ⟨j, hj1, hj2, _⟩ := solveLinearSystem_none_first n A hs
    exact ⟨j, hj1, hj2⟩
  · intro hex
    have hj := Nat.find_spec hex
    unfold solveLinearSystem
    rw [Option.map_eq_none']
    have hiff := forwardAux_none_iff n A n 0
    rw [show matrixAtStep n A 0 = A from rfl] at hiff
    refine hiff.mpr ⟨Nat.find hex, Nat.zero_le _, by omega, hj.2, ?_⟩
    intro m _ hm hc
    exact Nat.find_min hex hm ⟨by omega, hc⟩

/-- Along a failure-free prefix of the elimination the zero region matches the
column index and the leading block stays nonsingular. -/
theorem matrixAtStep_inv (n : ℕ) (A : ℕ → ℕ → ℚ) :
    ∀ i, i ≤ n → (∀ m, m < i → (findPivot (matrixAtStep n A m) n m).2 ≠ 0) →
      ZeroBelow (matrixAtStep n A i) n i ∧
      (Matrix.det (sqMatrix n A) ≠ 0 →
        Matrix.det (sqMatrix n (matrixAtStep n A i)) ≠ 0) := by
  intro i
  induction i with
  | zero =>
    intro _ _
    exact ⟨fun r _ _ k hk => absurd hk (Nat.not_lt_zero k), fun h => h⟩
  | succ i ih =>
    intro hin hall
    obtain ⟨hzb, hdet⟩ := ih (by omega) (fun m hm => hall m (by omega))
    have hp := hall i (by omega)
    obtain ⟨h1, _, _, _, h5⟩ :=
      stepOnce_props n (matrixAtStep n A i) i (by omega) hzb hp
    rw [matrixAtStep_succ]
    exact ⟨h1, fun h => h5 (hdet h)⟩

/-- A zero pivot maximum at column `i` of a matrix whose rows `≥ i` vanish
left of column `i` forces the leading square block to be singular: its first
`i + 1` columns are supported on only `i` rows. -/
theorem det_zero_of_pivot_fail (n : ℕ) (B : ℕ → ℕ → ℚ) (i : ℕ) (hi : i < n)
    (hzb : ZeroBelow B n i) (hp : (findPivot B n i).2 = 0) :
    Matrix.det (sqMatrix n B) = 0 := by
  obtain ⟨_, _, hmax⟩ := findPivot_spec B n i hi
  have hzcol : ∀ r k, i ≤ r → r < n → k ≤ i → B r k = 0 := by
    intro r k hr hrn hk
    rcases Nat.lt_or_ge k i with hlt | hge
    · exact hzb r hr hrn k hlt
    · have hki : k = i := by omega
      subst hki
      have := hmax r hr hrn
      rw [hp] at this
      exact abs_eq_zero.mp (le_antisymm this (abs_nonneg _))
  rw [Matrix.det_apply]
  refine Finset.sum_eq_zero ?_
  intro σ _
  have hwit : ∃ k : Fin n, k.val ≤ i ∧ i ≤ (σ k).val := by
    by_contra hno
    push_neg at hno
    have hmaps : ∀ k ∈ Finset.filter (fun k : Fin n => k.val ≤ i)
        Finset.univ, σ k ∈ Finset.filter (fun r : Fin n => r.val < i)
          Finset.univ := by
      intro k hk
      rw [Finset.mem_filter] at hk ⊢
      exact ⟨Finset.mem_univ _, hno k hk.2⟩
    have hcard := Finset.card_le_card_of_injOn σ hmaps
      (Set.injOn_of_injective σ.injective)
    have hS : Finset.filter (fun k : Fin n => k.val ≤ i) Finset.univ
        = Finset.Iic (⟨i, hi⟩ : Fin n) := by
      ext k
      simp [Finset.mem_Iic, Fin.le_def]
    have hT : Finset.filter (fun r : Fin n => r.val < i) Finset.univ
        = Finset.Iio (⟨i, hi⟩ : Fin n) := by
      ext r
      simp [Finset.mem_Iio, Fin.lt_def]
    rw [hS, hT, Fin.card_Iic, Fin.card_Iio] at hcard
    omega
  obtain ⟨k, hk1, hk2⟩ := hwit
  have hzero : sqMatrix n B (σ k) k = 0 :=
    hzcol (σ k).val k.val hk2 (σ k).isLt hk1
  have hprod : (∏ j, sqMatrix n B (σ j) j) = 0 :=
    Finset.prod_eq_zero (Finset.mem_univ k) hzero
  rw [hprod, smul_zero]

/-- A nonsingular leading block forces the solver to succeed. -/
theorem solveLinearSystem_some_of_det (n : ℕ) (A : ℕ → ℕ → ℚ)
    (hdet : Matrix.det (sqMatrix n A) ≠ 0) :
    ∃ xs, solveLinearSystem n A = some xs := by
  cases hs : solveLinearSystem n A with
  | some xs => exact ⟨xs, rfl⟩
  | none =>
    exfalso
    obtain ⟨j, hj1, hj2, hj3⟩ := solveLinearSystem_none_first n A hs
    obtain ⟨hzb, hdet'⟩ := matrixAtStep_inv n A j (by omega) hj3
    exact hdet' hdet (det_zero_of_pivot_fail n (matrixAtStep n A j) j hj1
      hzb hj2)

/-- The 3×3 matrix of homogeneous source triangle coordinates. -/
def srcMat (x0 y0 x1 y1 x2 y2 : ℚ) : Matrix (Fin 3) (Fin 3) ℚ :=
  Matrix.of ![![x0, y0, 1], ![x1, y1, 1], ![x2, y2, 1]]

/-- Its determinant is the doubled signed area of the source triangle. -/
theorem det_srcMat (x0 y0 x1 y1 x2 y2 : ℚ) :
    Matrix.det (srcMat x0 y0 x1 y1 x2 y2)
      = (x1 - x0) * (y2 - y0) - (x2 - x0) * (y1 - y0) := by
  rw [Matrix.det_fin_three]
  simp only [srcMat, Matrix.of_apply, Matrix.cons_val', Matrix.cons_val_zero,
    Matrix.cons_val_one, Matrix.head_cons, Matrix.empty_val',
    Matrix.cons_val_fin_one, Matrix.head_fin_const, Matrix.cons_val_two,
    Matrix.tail_cons]
  ring

/-- The leading 6×6 block of the affine augmented matrix is the two-fold
block-diagonal copy of the homogeneous source matrix. -/
theorem sqMatrix_affine_blocks (x0 y0 x1 y1 x2 y2 u0 u1 u2 v0 v1 v2 : ℚ) :
    sqMatrix 6 (affineAugmented x0 y0 x1 y1 x2 y2 u0 u1 u2 v0 v1 v2)
      = (Matrix.fromBlocks (srcMat x0 y0 x1 y1 x2 y2) 0 0
          (srcMat x0 y0 x1 y1 x2 y2)).submatrix
            finSumFinEquiv.symm finSumFinEquiv.symm := by
  ext r c
  fin_cases r <;> fin_cases c <;> rfl

/-- The determinant controlling solvability of the affine system is the
square of the doubled signed source-triangle area. -/
theorem det_affine (x0 y0 x1 y1 x2 y2 u0 u1 u2 v0 v1 v2 : ℚ) :
    Matrix.det (sqMatrix 6 (affineAugmented x0 y0 x1 y1 x2 y2 u0 u1 u2 v0 v1
        v2))
      = ((x1 - x0) * (y2 - y0) - (x2 - x0) * (y1 - y0)) ^ 2 := by
  rw [sqMatrix_affine_blocks, Matrix.det_submatrix_equiv_self,
    Matrix.det_fromBlocks_zero₂₁, det_srcMat]
  ring

/-- The six-entry row sum, written out. -/
theorem rowSum_six (A : ℕ → ℕ → ℚ) (r : ℕ) (x : ℕ → ℚ) :
    rowSum A 6 r x = A r 0 * x 0 + A r 1 * x 1 + A r 2 * x 2 + A r 3 * x 3
      + A r 4 * x 4 + A r 5 * x 5 := by
  unfold rowSum
  rw [Finset.sum_range_succ, Finset.sum_range_succ, Finset.sum_range_succ,
    Finset.sum_range_succ, Finset.sum_range_succ, Finset.sum_range_succ,
    Finset.sum_range_zero]
  ring

/-- C7: `ol.math.solveLinearSystem` on the 6×7 affine augmented matrix, under
exact arithmetic: (i) any returned coefficient vector
`(a00, a01, a02, a10, a11, a12)` has six entries and exactly reproduces the
three `(u, v)` pairs from the three `(x, y)` pairs; (ii) whenever the system
is non-singular — the source triangle determinant
`D = (x1-x0)(y2-y0)-(x2-x0)(y1-y0)` is nonzero, the leading 6×6 block having
determinant `D^2` — the solver returns some coefficients; (iii) the solver
returns null exactly when at some elimination column `i` the maximum of
`|A[r][i]|` over the remaining rows `r ≥ i` of the matrix as transformed so
far is exactly zero. -/
theorem affine_solver_correct (x0 y0 x1 y1 x2 y2 u0 u1 u2 v0 v1 v2 : ℚ) :
    (∀ cs, solveLinearSystem 6
        (affineAugmented x0 y0 x1 y1 x2 y2 u0 u1 u2 v0 v1 v2) = some cs →
      cs.length = 6 ∧
      cs.getD 0 0 * x0 + cs.getD 1 0 * y0 + cs.getD 2 0 = u0 ∧
      cs.getD 0 0 * x1 + cs.getD 1 0 * y1 + cs.getD 2 0 = u1 ∧
      cs.getD 0 0 * x2 + cs.getD 1 0 * y2 + cs.getD 2 0 = u2 ∧
      cs.getD 3 0 * x0 + cs.getD 4 0 * y0 + cs.getD 5 0 = v0 ∧
      cs.getD 3 0 * x1 + cs.getD 4 0 * y1 + cs.getD 5 0 = v1 ∧
      cs.getD 3 0 * x2 + cs.getD 4 0 * y2 + cs.getD 5 0 = v2) ∧
    ((x1 - x0) * (y2 - y0) - (x2 - x0) * (y1 - y0) ≠ 0 →
      ∃ cs, solveLinearSystem 6
        (affineAugmented x0 y0 x1 y1 x2 y2 u0 u1 u2 v0 v1 v2) = some cs) ∧
    (solveLinearSystem 6
        (affineAugmented x0 y0 x1 y1 x2 y2 u0 u1 u2 v0 v1 v2) = none ↔
      ∃ i, i < 6 ∧ (findPivot (matrixAtStep 6
        (affineAugmented x0 y0 x1 y1 x2 y2 u0 u1 u2 v0 v1 v2) i) 6 i).2
          = 0) := by
  refine ⟨?_, ?_, solveLinearSystem_none_iff 6 _⟩
  · intro cs h
    obtain ⟨hlen, hsol⟩ := solveLinearSystem_some_solves 6 _ cs h
    refine ⟨hlen, ?_, ?_, ?_, ?_, ?_, ?_⟩
    · have h0 := hsol 0 (by omega)
      rw [rowSum_six] at h0
      replace h0 : x0 * cs.getD 0 0 + y0 * cs.getD 1 0 + 1 * cs.getD 2 0
          + 0 * cs.getD 3 0 + 0 * cs.getD 4 0 + 0 * cs.getD 5 0 = u0 := h0
      linarith
    · have h1 := hsol 1 (by omega)
      rw [rowSum_six] at h1
      replace h1 : x1 * cs.getD 0 0 + y1 * cs.getD 1 0 + 1 * cs.getD 2 0
          + 0 * cs.getD 3 0 + 0 * cs.getD 4 0 + 0 * cs.getD 5 0 = u1 := h1
      linarith
    · have h2 := hsol 2 (by omega)
      rw [rowSum_six] at h2
      replace h2 : x2 * cs.getD 0 0 + y2 * cs.getD 1 0 + 1 * cs.getD 2 0
          + 0 * cs.getD 3 0 + 0 * cs.getD 4 0 + 0 * cs.getD 5 0 = u2 := h2
      linarith
    · have h3 := hsol 3 (by omega)
      rw [rowSum_six] at h3
      replace h3 : 0 * cs.getD 0 0 + 0 * cs.getD 1 0 + 0 * cs.getD 2 0
          + x0 * cs.getD 3 0 + y0 * cs.getD 4 0 + 1 * cs.getD 5 0 = v0 := h3
      linarith
    · have h4 := hsol 4 (by omega)
      rw [rowSum_six] at h4
      replace h4 : 0 * cs.getD 0 0 + 0 * cs.getD 1 0 + 0 * cs.getD 2 0
          + x1 * cs.getD 3 0 + y1 * cs.getD 4 0 + 1 * cs.getD 5 0 = v1 := h4
      linarith
    · have h5 := hsol 5 (by omega)
      rw [rowSum_six] at h5
      replace h5 : 0 * cs.getD 0 0 + 0 * cs.getD 1 0 + 0 * cs.getD 2 0
          + x2 * cs.getD 3 0 + y2 * cs.getD 4 0 + 1 * cs.getD 5 0 = v2 := h5
      linarith
  · intro hD
    refine solveLinearSystem_some_of_det 6 _ ?_
    rw [det_affine]
    exact pow_ne_zero 2 hD

/-- C7 witness: at the concrete nondegenerate source triangle
`(0,0), (1,0), (0,1)` the determinant hypothesis holds and the solver
succeeds. -/
theorem affine_solver_correct_witness :
    ((1 - 0) * (1 - 0) - (0 - 0) * (0 - 0) : ℚ) ≠ 0 ∧
    ∃ cs, solveLinearSystem 6
      (affineAugmented 0 0 1 0 0 1 3 4 5 6 7 8) = some cs :=
  ⟨by norm_num,
    (affine_solver_correct 0 0 1 0 0 1 3 4 5 6 7 8).2.1 (by norm_num)⟩

end OlReproj
